import Mathlib

/-!
Verification of the clarity statistical pattern / insight pipeline.

The definitions below are a shallow embedding of the analysis core:
`InsightAnalyzer` (src/core/engine/analyzer.py), `FinancialAnalyzer`
(src/core/patterns/financial.py) and `BehaviorAnalyzer`
(src/core/patterns/behavior.py).  Python floats are modelled as `ℚ`
(or `ℝ` where a square root is taken), pandas tables as lists of
records, and dictionaries as association lists in insertion order.
-/

namespace Clarity

/-! ### Date-range validation in `analyze_user_data` -/

/-- Repository-facing side effects performed by `analyze_user_data` after
validation: the three concurrent domain fetches and the final persistence of
the analysis record. -/
inductive AnalysisEffect
  | fetchBehaviorData
  | fetchFinancialData
  | fetchTemporalData
  | persistAnalysis
  deriving DecidableEq

/-- Date-range resolution of `analyze_user_data` (analyzer.py lines 82-83):
a missing end date defaults to the current time, a missing start date to the
end date minus 30 days.  Times are measured in days. -/
def resolveDates (now : ℚ) (startDate? endDate? : Option ℚ) : ℚ × ℚ :=
  let endDate := endDate?.getD now
  let startDate := startDate?.getD (endDate - 30)
  (startDate, endDate)

/-- Shallow embedding of `analyze_user_data` (analyzer.py lines 80-150):
the date range is resolved and validated before anything else; the
fetch / analysis / persistence stages that follow are modelled by the list
of repository effects the call performs.  When validation fails the source
raises `ValueError("Start date must be before end date")` before any
repository call, so the effect list is empty on that path. -/
def analyzeUserData (now : ℚ) (startDate? endDate? : Option ℚ) :
    Except String (ℚ × ℚ) × List AnalysisEffect :=
  let r := resolveDates now startDate? endDate?
  if r.2 ≤ r.1 then
    (Except.error "Start date must be before end date", [])
  else
    (Except.ok r,
      [AnalysisEffect.fetchBehaviorData, AnalysisEffect.fetchFinancialData,
       AnalysisEffect.fetchTemporalData, AnalysisEffect.persistAnalysis])

/-- C9: `analyze_user_data` fails with the date-range validation error iff the
resolved start date is ≥ the resolved end date, where a missing end date
defaults to the current time and a missing start date defaults to the end
date minus 30 days; on that failure no repository effect has occurred. -/
theorem analyze_user_data_validates_dates (now : ℚ) (startDate? endDate? : Option ℚ) :
    ((analyzeUserData now startDate? endDate?).1 =
        Except.error "Start date must be before end date" ↔
      (resolveDates now startDate? endDate?).2 ≤
        (resolveDates now startDate? endDate?).1) ∧
    ((analyzeUserData now startDate? endDate?).1 =
        Except.error "Start date must be before end date" →
      (analyzeUserData now startDate? endDate?).2 = []) := by
  unfold analyzeUserData
  by_cases h : (resolveDates now startDate? endDate?).2 ≤
      (resolveDates now startDate? endDate?).1 <;>
    simp [h]

/-- Witness for C9: with `now = 0`, an explicit start of day 5 and end of
day 1, the call fails with the validation error and performs no repository
effect. -/
theorem analyze_user_data_validates_dates_witness :
    (analyzeUserData 0 (some 5) (some 1)).1 =
        Except.error "Start date must be before end date" ∧
      (analyzeUserData 0 (some 5) (some 1)).2 = [] := by
  have h := analyze_user_data_validates_dates 0 (some 5) (some 1)
  have herr : (analyzeUserData 0 (some 5) (some 1)).1 =
      Except.error "Start date must be before end date" :=
    h.1.mpr (by norm_num [resolveDates])
  exact ⟨herr, h.2 herr⟩

/-! ### Budget-variance patterns in `FinancialAnalyzer` -/

/-- Budget data for one category, as built by `get_user_data`: the configured
limit and the actual spend. -/
structure BudgetInfo where
  category : String
  limit : ℚ
  actual : ℚ
  deriving DecidableEq

/-- Threshold `self.budget_variance_threshold = 0.15` (financial.py line 31). -/
def budget_variance_threshold : ℚ := 15 / 100

/-- One emitted budget-adherence pattern (type, category, strength and the
signed variance stored in its metadata). -/
structure BudgetPattern where
  ptype : String
  category : String
  strength : ℚ
  variance : ℚ
  deriving DecidableEq

/-- Shallow embedding of `FinancialAnalyzer._analyze_budget_patterns`
(financial.py lines 200-228): `variance = (actual - limit)/limit if limit > 0
else 0`; a pattern is emitted when `|variance|` exceeds the threshold, typed
`over_budget` when the variance is positive, with strength `|variance|`. -/
def analyzeBudgetPatterns (budgets : List BudgetInfo) : List BudgetPattern :=
  budgets.filterMap fun b =>
    let variance := if 0 < b.limit then (b.actual - b.limit) / b.limit else 0
    if budget_variance_threshold < |variance| then
      some { ptype := if 0 < variance then "over_budget" else "under_budget",
             category := b.category,
             strength := |variance|,
             variance := variance }
    else
      none

/-- C10: a budget category with nonpositive limit has variance defined as 0
(no division) and never yields a pattern; every emitted pattern comes from a
category with positive limit whose relative variance exceeds 0.15 in absolute
value, is typed `over_budget` exactly when the variance is positive, and has
strength `|variance|`; conversely every such category yields a pattern. -/
theorem analyze_budget_patterns_correct (budgets : List BudgetInfo)
    (hnodup : (budgets.map BudgetInfo.category).Nodup) :
    (∀ p ∈ analyzeBudgetPatterns budgets,
      ∃ b ∈ budgets, 0 < b.limit ∧ p.category = b.category ∧
        budget_variance_threshold < |(b.actual - b.limit) / b.limit| ∧
        p.variance = (b.actual - b.limit) / b.limit ∧
        p.strength = |p.variance| ∧
        p.ptype = (if 0 < p.variance then "over_budget" else "under_budget")) ∧
    (∀ b ∈ budgets, b.limit ≤ 0 →
      ∀ p ∈ analyzeBudgetPatterns budgets, p.category ≠ b.category) ∧
    (∀ b ∈ budgets, 0 < b.limit →
      budget_variance_threshold < |(b.actual - b.limit) / b.limit| →
      ∃ p ∈ analyzeBudgetPatterns budgets, p.category = b.category ∧
        p.strength = |(b.actual - b.limit) / b.limit| ∧
        p.ptype = (if 0 < (b.actual - b.limit) / b.limit then "over_budget"
                   else "under_budget")) := by
  refine ⟨?_, ?_, ?_⟩
  · intro p hp
    rcases List.mem_filterMap.mp hp with ⟨b, hb, hfb⟩
    by_cases hl : 0 < b.limit
    · simp only [hl, if_true] at hfb
      by_cases hv : budget_variance_threshold < |(b.actual - b.limit) / b.limit|
      · simp only [hv, if_true, Option.some.injEq] at hfb
        refine ⟨b, hb, hl, ?_⟩
        subst hfb
        exact ⟨rfl, hv, rfl, rfl, rfl⟩
      · simp [hv] at hfb
    · simp only [hl, if_false] at hfb
      norm_num [budget_variance_threshold] at hfb
      exact Option.noConfusion hfb
  · intro b hb hl p hp hcat
    rcases List.mem_filterMap.mp hp with ⟨b2, hb2, hfb⟩
    by_cases hl2 : 0 < b2.limit
    · simp only [hl2, if_true] at hfb
      by_cases hv : budget_variance_threshold < |(b2.actual - b2.limit) / b2.limit|
      · simp only [hv, if_true, Option.some.injEq] at hfb
        have hpcat : p.category = b2.category := by rw [← hfb]
        have : b2 = b := by
          have := List.inj_on_of_nodup_map hnodup
          exact this hb2 hb (by rw [← hpcat, hcat])
        rw [this] at hl2
        exact absurd hl (not_le.mpr hl2)
      · simp [hv] at hfb
    · simp only [hl2, if_false] at hfb
      norm_num [budget_variance_threshold] at hfb
      exact Option.noConfusion hfb
  · intro b hb hl hv
    refine ⟨{ ptype := if 0 < (b.actual - b.limit) / b.limit then "over_budget"
                       else "under_budget",
              category := b.category,
              strength := |(b.actual - b.limit) / b.limit|,
              variance := (b.actual - b.limit) / b.limit },
            List.mem_filterMap.mpr ⟨b, hb, ?_⟩, rfl, rfl, rfl⟩
    simp only [hl, if_true, hv, if_true]

/-- Witness for C10: the spec's budget scenario — limit 500, actual spend 650
in category Discretionary — yields an `over_budget` pattern of strength 0.3. -/
theorem analyze_budget_patterns_correct_witness :
    ∃ p ∈ analyzeBudgetPatterns [⟨"Discretionary", 500, 650⟩],
      p.category = "Discretionary" ∧ p.strength = 3 / 10 ∧
      p.ptype = "over_budget" := by
  have h := (analyze_budget_patterns_correct [⟨"Discretionary", 500, 650⟩]
    (by simp)).2.2
  have hres := h ⟨"Discretionary", 500, 650⟩ (by simp) (by norm_num)
    (by norm_num [budget_variance_threshold, abs_of_pos])
  rcases hres with ⟨p, hp, hcat, hstr, hty⟩
  refine ⟨p, hp, hcat, ?_, ?_⟩
  · rw [hstr]; norm_num [abs_of_pos]
  · rw [hty]; norm_num

/-! ### First-occurrence deduplication

The dedup loop of `_prioritize_recommendations` keeps the first occurrence
of each title, tracking the keys already seen; `dedupByKey` is that loop
with the key function as a parameter. -/

section DedupByKey

variable {A K : Type} [DecidableEq K] (key : A → K)

/-- First-occurrence deduplication with an accumulator of already-seen keys
(`seen_contents` in analyzer.py lines 572-579, `seen_titles` in lines
617-623). -/
def dedupByKey : List K → List A → List A
  | _, [] => []
  | seen, a :: rest =>
    if key a ∈ seen then dedupByKey seen rest
    else a :: dedupByKey (key a :: seen) rest

theorem dedupByKey_sublist : ∀ (seen : List K) (l : List A),
    List.Sublist (dedupByKey key seen l) l
  | _, [] => List.Sublist.refl []
  | seen, a :: rest => by
    rw [dedupByKey]
    by_cases h : key a ∈ seen
    · simpa [h] using (dedupByKey_sublist seen rest).cons a
    · simpa [h] using (dedupByKey_sublist (key a :: seen) rest).cons₂ a

theorem dedupByKey_keys_nodup : ∀ (seen : List K) (l : List A),
    ((dedupByKey key seen l).map key).Nodup ∧
      ∀ a ∈ dedupByKey key seen l, key a ∉ seen
  | _, [] => by simp [dedupByKey]
  | seen, a :: rest => by
    rw [dedupByKey]
    by_cases h : key a ∈ seen
    · simpa [h] using dedupByKey_keys_nodup seen rest
    · have ih := dedupByKey_keys_nodup (key a :: seen) rest
      simp only [h, if_false, List.map_cons, List.nodup_cons, List.mem_map]
      refine ⟨⟨?_, ih.1⟩, ?_⟩
      · rintro ⟨b, hb, hkb⟩
        exact (ih.2 b hb) (by simp [hkb])
      · intro b hb
        rcases List.mem_cons.mp hb with rfl | hb
        · exact h
        · intro hmem
          exact (ih.2 b hb) (by simp [hmem])

theorem dedupByKey_eq_self : ∀ (seen : List K) (l : List A),
    (l.map key).Nodup → (∀ a ∈ l, key a ∉ seen) →
    dedupByKey key seen l = l
  | _, [], _, _ => rfl
  | seen, a :: rest, hnd, hout => by
    have ha : key a ∉ seen := hout a (List.mem_cons_self a rest)
    have hnd2 : key a ∉ rest.map key ∧ (rest.map key).Nodup := by
      rw [List.map_cons, List.nodup_cons] at hnd
      exact hnd
    rw [dedupByKey, if_neg ha]
    congr 1
    refine dedupByKey_eq_self (key a :: seen) rest hnd2.2 ?_
    intro b hb hmem
    rcases List.mem_cons.mp hmem with heq | hseen
    · exact hnd2.1 (heq ▸ List.mem_map_of_mem key hb)
    · exact hout b (List.mem_cons_of_mem a hb) hseen

theorem dedupByKey_covers : ∀ (seen : List K) (l : List A),
    ∀ a ∈ l, key a ∈ seen ∨ ∃ b ∈ dedupByKey key seen l, key b = key a
  | seen, a :: rest, x, hx => by
    rw [dedupByKey]
    by_cases h : key a ∈ seen
    · rcases List.mem_cons.mp hx with rfl | hx
      · exact Or.inl h
      · simpa [h] using dedupByKey_covers seen rest x hx
    · rcases List.mem_cons.mp hx with rfl | hx
      · exact Or.inr ⟨x, by simp [h]⟩
      · rcases dedupByKey_covers (key a :: seen) rest x hx with hmem | ⟨b, hb, hkb⟩
        · rcases List.mem_cons.mp hmem with heq | hseen
          · exact Or.inr ⟨a, by simp [h], heq.symm⟩
          · exact Or.inl hseen
        · exact Or.inr ⟨b, by simp [h, hb], hkb⟩

theorem dedupByKey_first : ∀ (seen : List K) (l : List A),
    ∀ b ∈ dedupByKey key seen l, key b ∉ seen ∧
      ∃ pre post, l = pre ++ b :: post ∧
        ∀ x ∈ pre, key x ≠ key b ∨ key x ∈ seen
  | seen, a :: rest, b, hb => by
    rw [dedupByKey] at hb
    by_cases h : key a ∈ seen
    · rw [if_pos h] at hb
      obtain ⟨hnot, pre, post, hsplit, hpre⟩ := dedupByKey_first seen rest b hb
      exact ⟨hnot, a :: pre, post, by simp [hsplit],
        fun x hx => by
          rcases List.mem_cons.mp hx with rfl | hx
          · by_cases hxb : key x = key b
            · exact Or.inr h
            · exact Or.inl hxb
          · exact hpre x hx⟩
    · rw [if_neg h] at hb
      rcases List.mem_cons.mp hb with rfl | hb
      · exact ⟨h, [], rest, rfl, by simp⟩
      · obtain ⟨hnot, pre, post, hsplit, hpre⟩ :=
          dedupByKey_first (key a :: seen) rest b hb
        have hab : key a ≠ key b := fun heq => hnot (by simp [heq])
        refine ⟨fun hmem => hnot (List.mem_cons_of_mem _ hmem),
          a :: pre, post, by simp [hsplit], ?_⟩
        intro x hx
        rcases List.mem_cons.mp hx with rfl | hx
        · exact Or.inl hab
        · rcases hpre x hx with hne | hmem
          · exact Or.inl hne
          · rcases List.mem_cons.mp hmem with heq | hseen
            · rw [heq]
              exact Or.inl hab
            · exact Or.inr hseen

end DedupByKey

/-! ### Insight ranking and deduplication (`_rank_and_deduplicate_insights`) -/

/-- An insight as built by the insight builders in analyzer.py, restricted to
the fields that ranking and deduplication read.  `itype` holds the
`InsightType` enum value as a string; the generated id, description and
metadata bag are omitted. -/
structure Insight where
  itype : String
  category : String
  title : String
  severity : String
  confidence : ℚ
  deriving DecidableEq

/-- Shallow embedding of `_severity_to_score` (analyzer.py lines 595-598):
a dictionary lookup with default 0. -/
def severityToScore (s : String) : ℕ :=
  if s = "high" then 3 else if s = "medium" then 2 else if s = "low" then 1 else 0

/-- Shallow embedding of `_generate_insight_hash` (analyzer.py lines
590-593).  The function interpolates the content string
`"{type}:{category}:{title}"` and then evaluates
`hashlib.md5(content.encode())` — but `hashlib` is never imported in
analyzer.py, so every call raises NameError instead of returning a
digest. -/
def generateInsightHash (_ : Insight) : Except String String :=
  Except.error "NameError: name 'hashlib' is not defined"

/-- Ranking key of `_rank_and_deduplicate_insights`: the tuple
`(severity score, confidence)`. -/
def rankKey (i : Insight) : ℕ × ℚ := (severityToScore i.severity, i.confidence)

/-- Python's `sorted(..., key=rankKey, reverse=True)` compares key tuples
lexicographically and places `x` before `y` when `key y ≤ key x`, keeping
the original order of equal keys (Timsort is stable, also under
`reverse=True`).  `insightBefore x y` is that comparison. -/
def insightBefore (x y : Insight) : Prop :=
  (rankKey y).1 < (rankKey x).1 ∨
    ((rankKey y).1 = (rankKey x).1 ∧ (rankKey y).2 ≤ (rankKey x).2)

instance : DecidableRel insightBefore := fun x y => by
  unfold insightBefore
  infer_instance

instance : IsTotal Insight insightBefore := by
  constructor
  intro a b
  unfold insightBefore
  rcases lt_trichotomy (rankKey a).1 (rankKey b).1 with h | h | h
  · exact Or.inr (Or.inl h)
  · rcases le_total (rankKey a).2 (rankKey b).2 with h2 | h2
    · exact Or.inr (Or.inr ⟨h, h2⟩)
    · exact Or.inl (Or.inr ⟨h.symm, h2⟩)
  · exact Or.inl (Or.inl h)

instance : IsTrans Insight insightBefore := by
  constructor
  intro a b c hab hbc
  unfold insightBefore at *
  rcases hab with h1 | ⟨h1, h1c⟩ <;> rcases hbc with h2 | ⟨h2, h2c⟩
  · exact Or.inl (h2.trans h1)
  · exact Or.inl (h2 ▸ h1)
  · exact Or.inl (h1 ▸ h2)
  · exact Or.inr ⟨h2.trans h1, h2c.trans h1c⟩

/-- The first-occurrence deduplication loop of
`_rank_and_deduplicate_insights` (analyzer.py lines 572-579): each
iteration computes the content hash of its insight before any membership
test, so the NameError raised by `_generate_insight_hash` aborts the whole
call on the first insight. -/
def dedupInsightsLoop (seen : List String) : List Insight → Except String (List Insight)
  | [] => Except.ok []
  | i :: rest =>
    match generateInsightHash i with
    | Except.error e => Except.error e
    | Except.ok h =>
      if h ∈ seen then dedupInsightsLoop seen rest
      else (dedupInsightsLoop (h :: seen) rest).map fun tail => i :: tail

/-- Shallow embedding of `_rank_and_deduplicate_insights` (analyzer.py
lines 569-588): first-occurrence deduplication by content hash, then a
stable sort descending by `(severity score, confidence)` (the stable
Timsort is modelled by `List.insertionSort`).  Because the hash helper
raises on every call, the ranked list is only ever returned for the empty
input. -/
def rankAndDeduplicateInsights (insights : List Insight) : Except String (List Insight) :=
  (dedupInsightsLoop [] insights).map (List.insertionSort insightBefore)

/-- C3 (code bug): on every nonempty input `_rank_and_deduplicate_insights`
raises `NameError: name 'hashlib' is not defined` (the import is missing,
so `_generate_insight_hash` fails on the first insight) instead of
returning the deduplicated list ranked by (severity score, confidence)
that the claim and its own docstring describe; only the empty input returns
the (empty) ranked list. -/
theorem rank_and_deduplicate_insights_raises :
    (∀ (i : Insight) (rest : List Insight),
      rankAndDeduplicateInsights (i :: rest) =
        Except.error "NameError: name 'hashlib' is not defined") ∧
    rankAndDeduplicateInsights [] = Except.ok [] :=
  ⟨fun _ _ => rfl, rfl⟩

/-! ### Pattern scores (`_calculate_pattern_scores`) -/

/-- A combined pattern as read by `_calculate_pattern_scores`: its type
string and its strength. -/
structure ScoredPattern where
  ptype : String
  strength : ℚ
  deriving DecidableEq

/-- Domain weights `self.pattern_weights` (analyzer.py lines 47-51). -/
def patternWeights (k : String) : ℚ :=
  if k = "productivity" then 35 / 100
  else if k = "financial" then 35 / 100
  else if k = "temporal" then 30 / 100
  else 0

/-- Python `pattern["type"].split("_")[0]`. -/
def typeHead (s : String) : String := (s.splitOn "_").headI

/-- The `scores` dictionary of `_calculate_pattern_scores`, with its three
fixed keys. -/
structure PatternScores where
  productivity : ℚ
  financial : ℚ
  temporal : ℚ
  deriving DecidableEq

/-- Accumulation loop of `_calculate_pattern_scores` (analyzer.py lines
383-388): a pattern contributes `strength * weight` to the score keyed by the
first component of its type string, only when that key is one of the three
score keys. -/
def accumScores : PatternScores → List ScoredPattern → PatternScores
  | scores, [] => scores
  | scores, p :: rest =>
    let k := typeHead p.ptype
    let next :=
      if k = "productivity" then
        { scores with productivity := scores.productivity + p.strength * patternWeights k }
      else if k = "financial" then
        { scores with financial := scores.financial + p.strength * patternWeights k }
      else if k = "temporal" then
        { scores with temporal := scores.temporal + p.strength * patternWeights k }
      else scores
    accumScores next rest

/-- Shallow embedding of `_calculate_pattern_scores` (analyzer.py lines
379-392): accumulate weighted strengths per domain, then divide every score
by the maximum score when it is positive and return 0 otherwise. -/
def calculatePatternScores (patterns : List ScoredPattern) : PatternScores :=
  let scores := accumScores ⟨0, 0, 0⟩ patterns
  let maxScore := max scores.productivity (max scores.financial scores.temporal)
  { productivity := if 0 < maxScore then scores.productivity / maxScore else 0,
    financial := if 0 < maxScore then scores.financial / maxScore else 0,
    temporal := if 0 < maxScore then scores.temporal / maxScore else 0 }

/-- The sum `Σ (pattern.strength × domain weight)` over the patterns whose
type is headed by domain key `k`. -/
def domainTotal (patterns : List ScoredPattern) (k : String) : ℚ :=
  ((patterns.filter fun p => typeHead p.ptype = k).map
    fun p => p.strength * patternWeights k).sum

/-- The maximum of the three domain totals. -/
def maxDomainTotal (patterns : List ScoredPattern) : ℚ :=
  max (domainTotal patterns "productivity")
    (max (domainTotal patterns "financial") (domainTotal patterns "temporal"))

theorem accumScores_eq (patterns : List ScoredPattern) :
    ∀ scores : PatternScores, accumScores scores patterns =
      ⟨scores.productivity + domainTotal patterns "productivity",
       scores.financial + domainTotal patterns "financial",
       scores.temporal + domainTotal patterns "temporal"⟩ := by
  induction patterns with
  | nil => intro scores; simp [accumScores, domainTotal]
  | cons p rest ih =>
    intro scores
    rw [accumScores]
    by_cases hp : typeHead p.ptype = "productivity"
    · simp only [hp, if_true, ih]
      simp [domainTotal, hp, add_assoc]
    · by_cases hf : typeHead p.ptype = "financial"
      · simp only [hp, if_false, hf, if_true, ih]
        simp [domainTotal, hp, hf, add_assoc]
      · by_cases ht : typeHead p.ptype = "temporal"
        · simp only [hp, if_false, hf, ht, if_true, ih]
          simp [domainTotal, hp, hf, ht, add_assoc]
        · simp only [hp, if_false, hf, ht, ih]
          simp [domainTotal, hp, hf, ht]

theorem domainTotal_nonneg (patterns : List ScoredPattern)
    (hpos : ∀ p ∈ patterns, 0 ≤ p.strength) (k : String) :
    0 ≤ domainTotal patterns k := by
  unfold domainTotal
  apply List.sum_nonneg
  intro x hx
  rcases List.mem_map.mp hx with ⟨p, hp, rfl⟩
  have hs : 0 ≤ p.strength := hpos p (List.mem_of_mem_filter hp)
  have hw : 0 ≤ patternWeights k := by
    unfold patternWeights
    split_ifs <;> norm_num
  exact mul_nonneg hs hw

theorem patternScore_entry_bounds (patterns : List ScoredPattern)
    (hpos : ∀ p ∈ patterns, 0 ≤ p.strength) (k : String)
    (hle : domainTotal patterns k ≤ maxDomainTotal patterns) :
    0 ≤ (if 0 < maxDomainTotal patterns then
        domainTotal patterns k / maxDomainTotal patterns else 0) ∧
      (if 0 < maxDomainTotal patterns then
        domainTotal patterns k / maxDomainTotal patterns else 0) ≤ 1 := by
  by_cases hM : 0 < maxDomainTotal patterns
  · rw [if_pos hM]
    constructor
    · exact div_nonneg (domainTotal_nonneg patterns hpos k) hM.le
    · rw [div_le_one hM]
      exact hle
  · rw [if_neg hM]
    norm_num

/-- C4: `_calculate_pattern_scores` returns, per domain, the weighted
strength total of that domain's patterns divided by the maximum of the three
totals when that maximum is positive (and 0 otherwise, with no division);
under nonnegative pattern strengths every returned score lies in [0, 1]. -/
theorem calculate_pattern_scores_correct (patterns : List ScoredPattern)
    (hpos : ∀ p ∈ patterns, 0 ≤ p.strength) :
    calculatePatternScores patterns =
      { productivity := if 0 < maxDomainTotal patterns then
          domainTotal patterns "productivity" / maxDomainTotal patterns else 0,
        financial := if 0 < maxDomainTotal patterns then
          domainTotal patterns "financial" / maxDomainTotal patterns else 0,
        temporal := if 0 < maxDomainTotal patterns then
          domainTotal patterns "temporal" / maxDomainTotal patterns else 0 } ∧
    (0 ≤ (calculatePatternScores patterns).productivity ∧
      (calculatePatternScores patterns).productivity ≤ 1) ∧
    (0 ≤ (calculatePatternScores patterns).financial ∧
      (calculatePatternScores patterns).financial ≤ 1) ∧
    (0 ≤ (calculatePatternScores patterns).temporal ∧
      (calculatePatternScores patterns).temporal ≤ 1) ∧
    (maxDomainTotal patterns ≤ 0 → calculatePatternScores patterns = ⟨0, 0, 0⟩) := by
  have heq : calculatePatternScores patterns =
      { productivity := if 0 < maxDomainTotal patterns then
          domainTotal patterns "productivity" / maxDomainTotal patterns else 0,
        financial := if 0 < maxDomainTotal patterns then
          domainTotal patterns "financial" / maxDomainTotal patterns else 0,
        temporal := if 0 < maxDomainTotal patterns then
          domainTotal patterns "temporal" / maxDomainTotal patterns else 0 } := by
    unfold calculatePatternScores maxDomainTotal
    rw [accumScores_eq patterns ⟨0, 0, 0⟩]
    simp
  refine ⟨heq, ?_, ?_, ?_, ?_⟩ <;> rw [heq]
  · exact patternScore_entry_bounds patterns hpos "productivity" (le_max_left _ _)
  · exact patternScore_entry_bounds patterns hpos "financial"
      ((le_max_left _ _).trans (le_max_right _ _))
  · exact patternScore_entry_bounds patterns hpos "temporal"
      ((le_max_right _ _).trans (le_max_right _ _))
  · intro h
    simp [not_lt.mpr h]

/-- Witness for C4: on a single financial pattern of strength 1/2 the
financial score is in [0, 1]. -/
theorem calculate_pattern_scores_correct_witness :
    0 ≤ (calculatePatternScores [⟨"financial", 1/2⟩]).financial ∧
      (calculatePatternScores [⟨"financial", 1/2⟩]).financial ≤ 1 :=
  (calculate_pattern_scores_correct [⟨"financial", 1/2⟩]
    (by intro p hp; rw [List.mem_singleton] at hp; subst hp; norm_num)).2.2.1

/-! ### Recommendation prioritization (`_prioritize_recommendations`) -/

/-- The `RecommendationType` enum (imported in analyzer.py from
`clarity.schemas.analysis`, a module whose source is not part of the core;
its three members are the ones analyzer.py and the spec use:
Productivity / Financial / TimeManagement). -/
inductive RecommendationType
  | productivity
  | financial
  | timeManagement
  deriving DecidableEq

/-- Base impact scores of `_calculate_impact_score` (analyzer.py lines
630-634).  The `.get(type, 0.5)` default is unreachable because the
dictionary covers every member of the enum. -/
def baseScore : RecommendationType → ℚ
  | .productivity => 8 / 10
  | .financial => 8 / 10
  | .timeManagement => 7 / 10

/-- Difficulty modifiers of `_calculate_impact_score` (analyzer.py line 636),
a dictionary lookup with default 0.7. -/
def difficultyModifier (d : String) : ℚ :=
  if d = "easy" then 1
  else if d = "medium" then 8 / 10
  else if d = "hard" then 6 / 10
  else 7 / 10

/-- A recommendation as read by `_prioritize_recommendations`: the fields the
scoring and deduplication use. -/
structure Recommendation where
  title : String
  rtype : RecommendationType
  difficulty : String
  confidence_score : ℚ
  deriving DecidableEq

/-- Shallow embedding of `_calculate_impact_score` (analyzer.py lines
627-643). -/
def calculateImpactScore (r : Recommendation) : ℚ :=
  baseScore r.rtype * difficultyModifier r.difficulty

/-- A recommendation together with the `priority_score` added by
`_prioritize_recommendations`. -/
structure ScoredRecommendation where
  recommendation : Recommendation
  priority_score : ℚ
  deriving DecidableEq

/-- Python's `sorted(..., key=priority_score, reverse=True)` places `x`
before `y` when `y.priority_score ≤ x.priority_score`, stably. -/
def recBefore (x y : ScoredRecommendation) : Prop :=
  y.priority_score ≤ x.priority_score

instance : DecidableRel recBefore := fun x y => by
  unfold recBefore
  infer_instance

instance : IsTotal ScoredRecommendation recBefore :=
  ⟨fun a b => le_total b.priority_score a.priority_score⟩

instance : IsTrans ScoredRecommendation recBefore :=
  ⟨fun _ _ _ hab hbc => hbc.trans hab⟩

/-- Key used to deduplicate recommendations: the title. -/
def recTitle (s : ScoredRecommendation) : String := s.recommendation.title

/-- Shallow embedding of `_prioritize_recommendations` (analyzer.py lines
600-625): score every recommendation with
`priority_score = impact_score * confidence_score`, sort by priority score
descending (stable, modelled by `List.insertionSort`), then keep the first
occurrence of every title. -/
def prioritizeRecommendations (recs : List Recommendation) :
    List ScoredRecommendation :=
  let scored := recs.map fun r => ⟨r, calculateImpactScore r * r.confidence_score⟩
  let prioritized := List.insertionSort recBefore scored
  dedupByKey recTitle [] prioritized

/-- C6: every entry of `_prioritize_recommendations` carries
`priority_score = impact_score × confidence_score` (base scores 0.8 / 0.8 /
0.7 per type, modifiers 1.0 / 0.8 / 0.6 per difficulty) and stems from an
input recommendation; the output is sorted by priority score descending, no
two entries share a title, the kept entry of each title has the maximal
priority score among its title's occurrences, and every input title is
represented. -/
theorem prioritize_recommendations_correct (recs : List Recommendation) :
    (∀ s ∈ prioritizeRecommendations recs,
      s.recommendation ∈ recs ∧
      s.priority_score =
        baseScore s.recommendation.rtype *
          difficultyModifier s.recommendation.difficulty *
          s.recommendation.confidence_score) ∧
    List.Sorted recBefore (prioritizeRecommendations recs) ∧
    ((prioritizeRecommendations recs).map recTitle).Nodup ∧
    (∀ s ∈ prioritizeRecommendations recs, ∀ r ∈ recs,
      r.title = s.recommendation.title →
      calculateImpactScore r * r.confidence_score ≤ s.priority_score) ∧
    (∀ r ∈ recs, ∃ s ∈ prioritizeRecommendations recs,
      s.recommendation.title = r.title) := by
  classical
  set scored := recs.map fun r =>
    (⟨r, calculateImpactScore r * r.confidence_score⟩ : ScoredRecommendation)
    with hscored
  set prioritized := List.insertionSort recBefore scored with hprioritized
  have hperm : List.Perm prioritized scored :=
    List.perm_insertionSort recBefore scored
  have hsorted : List.Sorted recBefore prioritized :=
    List.sorted_insertionSort recBefore scored
  have hsub : List.Sublist (prioritizeRecommendations recs) prioritized :=
    dedupByKey_sublist recTitle [] prioritized
  have hmem_scored : ∀ s ∈ prioritizeRecommendations recs, s ∈ scored :=
    fun s hs => hperm.mem_iff.mp (hsub.mem hs)
  refine ⟨?_, ?_, ?_, ?_, ?_⟩
  · intro s hs
    rcases List.mem_map.mp (hmem_scored s hs) with ⟨r, hr, rfl⟩
    exact ⟨hr, rfl⟩
  · exact hsorted.sublist hsub
  · exact (dedupByKey_keys_nodup recTitle [] prioritized).1
  · intro s hs r hr htitle
    obtain ⟨-, pre, post, hsplit, hpre⟩ :=
      dedupByKey_first recTitle [] prioritized s hs
    have hrs : (⟨r, calculateImpactScore r * r.confidence_score⟩ :
        ScoredRecommendation) ∈ prioritized := by
      apply hperm.mem_iff.mpr
      exact List.mem_map.mpr ⟨r, hr, rfl⟩
    rw [hsplit] at hrs
    rcases List.mem_append.mp hrs with hpre2 | hrest
    · exfalso
      rcases hpre _ hpre2 with hne | hmem
      · exact hne htitle
      · exact List.not_mem_nil _ hmem
    · rcases List.mem_cons.mp hrest with heq | hpost
      · rw [← heq]
      · have := hsorted
        rw [hsplit] at this
        have hpair := (List.pairwise_append.mp this).2.1
        exact List.rel_of_pairwise_cons hpair hpost
  · intro r hr
    have hmem : (⟨r, calculateImpactScore r * r.confidence_score⟩ :
        ScoredRecommendation) ∈ prioritized := by
      apply hperm.mem_iff.mpr
      exact List.mem_map.mpr ⟨r, hr, rfl⟩
    rcases dedupByKey_covers recTitle [] prioritized _ hmem with hmem2 | ⟨b, hb, hkb⟩
    · exact absurd hmem2 (List.not_mem_nil _)
    · exact ⟨b, hb, hkb⟩

/-- Witness for C6: on two same-title recommendations the output titles are
deduplicated. -/
theorem prioritize_recommendations_correct_witness :
    ((prioritizeRecommendations
      [⟨"Focus blocks", RecommendationType.productivity, "easy", 1/2⟩,
       ⟨"Focus blocks", RecommendationType.productivity, "hard", 1⟩]).map
        recTitle).Nodup :=
  (prioritize_recommendations_correct
    [⟨"Focus blocks", RecommendationType.productivity, "easy", 1/2⟩,
     ⟨"Focus blocks", RecommendationType.productivity, "hard", 1⟩]).2.2.1

/-! ### Cross-domain pattern correlation (`_combine_patterns`) -/

/-- The pairwise correlation matrix `pd.concat(pattern_dfs.values(),
axis=1).corr()` handed to `_find_significant_correlations`: its column
labels and the coefficient at each (row index, column) position. -/
structure CorrMatrix where
  cols : List String
  corr : String → String → ℚ

/-- Threshold `self.correlation_threshold = 0.7` (analyzer.py line 42). -/
def correlation_threshold : ℚ := 7 / 10

/-- Shallow embedding of `_find_significant_correlations` (analyzer.py lines
257-274): for every column, the other indices whose absolute coefficient
reaches the threshold (the comparison is `>=`); columns with no significant
partner are dropped from the dictionary. -/
def findSignificantCorrelations (m : CorrMatrix) :
    List (String × List (String × ℚ)) :=
  (m.cols.map fun c =>
    (c, m.cols.filterMap fun idx =>
      if idx ≠ c ∧ correlation_threshold ≤ |m.corr idx c| then
        some (idx, |m.corr idx c|)
      else none)).filter fun p => !p.2.isEmpty

/-- A cross-domain combined pattern built by `_combine_patterns`
(analyzer.py lines 220-236): the type string
`"{pattern_type}_{correlated_type}"`, the strength (the absolute
coefficient), and the ordered key pair of its `patterns` dictionary. -/
structure CombinedPattern where
  ctype : String
  strength : ℚ
  sources : String × String
  deriving DecidableEq

/-- The correlation half of `_combine_patterns` (analyzer.py lines 220-236):
one CombinedPattern per (pattern_type, correlated_type) entry of the
significant-correlation dictionary. -/
def combineCorrelationPatterns (m : CorrMatrix) : List CombinedPattern :=
  (findSignificantCorrelations m).flatMap fun pc =>
    pc.2.map fun cs =>
      { ctype := pc.1 ++ "_" ++ cs.1, strength := cs.2, sources := (pc.1, cs.1) }

theorem filter_empty_flatMap {A B D : Type} (os : List A) (f : A → List B)
    (g : A → B → D) :
    (((os.map fun c => (c, f c)).filter fun p => !p.2.isEmpty).flatMap fun pc =>
      pc.2.map (g pc.1)) =
    os.flatMap fun c => (f c).map (g c) := by
  induction os with
  | nil => rfl
  | cons c os ih =>
    by_cases h : (f c).isEmpty
    · have hnil : f c = [] := by simpa using h
      simp [List.filter_cons, hnil, ih, List.flatMap_cons]
    · have h2 : (f c).isEmpty = false := by
        simpa using h
      simp [List.filter_cons, h2, ih, List.flatMap_cons]

theorem combineCorrelationPatterns_flatten (m : CorrMatrix) :
    combineCorrelationPatterns m = m.cols.flatMap fun c =>
      (m.cols.filterMap fun idx =>
        if idx ≠ c ∧ correlation_threshold ≤ |m.corr idx c| then
          some (idx, |m.corr idx c|)
        else none).map
        fun cs =>
          ({ ctype := c ++ "_" ++ cs.1, strength := cs.2,
             sources := (c, cs.1) } : CombinedPattern) := by
  unfold combineCorrelationPatterns findSignificantCorrelations
  exact filter_empty_flatMap m.cols
    (fun c => m.cols.filterMap fun idx =>
      if idx ≠ c ∧ correlation_threshold ≤ |m.corr idx c| then
        some (idx, |m.corr idx c|) else none)
    (fun c cs =>
      ({ ctype := c ++ "_" ++ cs.1, strength := cs.2,
         sources := (c, cs.1) } : CombinedPattern))

theorem countP_eq_single {b : String} : ∀ (os : List String),
    os.Nodup → b ∈ os → os.countP (fun c => decide (c = b)) = 1 := by
  intro os
  induction os with
  | nil => intro _ h; exact absurd h (List.not_mem_nil b)
  | cons c os ih =>
    intro hnd hmem
    rw [List.countP_cons]
    rcases List.mem_cons.mp hmem with rfl | hmem
    · have hnotin : b ∉ os := (List.nodup_cons.mp hnd).1
      have hzero : os.countP (fun x => decide (x = b)) = 0 :=
        List.countP_eq_zero.mpr fun x hx => by
          simp only [decide_eq_true_eq]
          rintro rfl
          exact hnotin hx
      simp [hzero]
    · have hne : c ≠ b := by
        rintro rfl
        exact (List.nodup_cons.mp hnd).1 hmem
      have := ih (List.nodup_cons.mp hnd).2 hmem
      simp [this, hne]

theorem countP_not_mem_zero {b : String} (p : String → Bool) :
    ∀ (os : List String), b ∉ os → os.countP (fun c => decide (c = b) && p c) = 0 := by
  intro os hb
  refine List.countP_eq_zero.mpr fun x hx => ?_
  simp only [Bool.and_eq_true, decide_eq_true_eq]
  rintro ⟨rfl, -⟩
  exact hb hx

theorem inner_countP_eq (m : CorrMatrix) (a b : String) (hnd : m.cols.Nodup)
    (hb : b ∈ m.cols) :
    (m.cols.filterMap fun idx =>
        if idx ≠ a ∧ correlation_threshold ≤ |m.corr idx a| then
          some (idx, |m.corr idx a|) else none).countP
      (fun cs => decide (cs.1 = b)) =
    if b ≠ a ∧ correlation_threshold ≤ |m.corr b a| then 1 else 0 := by
  have hstep : ∀ os : List String,
      (os.filterMap fun idx =>
        if idx ≠ a ∧ correlation_threshold ≤ |m.corr idx a| then
          some (idx, |m.corr idx a|) else none).countP
        (fun cs => decide (cs.1 = b)) =
      os.countP (fun idx => decide (idx = b) &&
        decide (idx ≠ a ∧ correlation_threshold ≤ |m.corr idx a|)) := by
    intro os
    induction os with
    | nil => rfl
    | cons idx os ih =>
      rw [List.filterMap_cons]
      by_cases hcond : idx ≠ a ∧ correlation_threshold ≤ |m.corr idx a|
      · rw [if_pos hcond, List.countP_cons, List.countP_cons, ih]
        simp [hcond]
      · rw [if_neg hcond, List.countP_cons, ih]
        simp [hcond]
  rw [hstep m.cols]
  by_cases hC : b ≠ a ∧ correlation_threshold ≤ |m.corr b a|
  · rw [if_pos hC]
    have hcongr : m.cols.countP (fun idx => decide (idx = b) &&
        decide (idx ≠ a ∧ correlation_threshold ≤ |m.corr idx a|)) =
        m.cols.countP (fun idx => decide (idx = b)) := by
      apply List.countP_congr
      intro x hx
      by_cases hxb : x = b
      · subst hxb
        simp [hC]
      · simp [hxb]
    rw [hcongr]
    exact countP_eq_single m.cols hnd hb
  · rw [if_neg hC]
    apply List.countP_eq_zero.mpr
    intro x hx
    simp only [Bool.and_eq_true, decide_eq_true_eq]
    rintro ⟨rfl, hcond⟩
    exact hC hcond

theorem head_countP_eq (m : CorrMatrix) (a b c : String) :
    ((m.cols.filterMap fun idx =>
        if idx ≠ c ∧ correlation_threshold ≤ |m.corr idx c| then
          some (idx, |m.corr idx c|) else none).map
      fun cs => ({ ctype := c ++ "_" ++ cs.1, strength := cs.2,
                   sources := (c, cs.1) } : CombinedPattern)).countP
      (fun p => decide (p.sources = (a, b))) =
    if c = a then
      (m.cols.filterMap fun idx =>
        if idx ≠ a ∧ correlation_threshold ≤ |m.corr idx a| then
          some (idx, |m.corr idx a|) else none).countP
        (fun cs => decide (cs.1 = b))
    else 0 := by
  rw [List.countP_map]
  by_cases hca : c = a
  · subst hca
    rw [if_pos rfl]
    apply List.countP_congr
    intro x hx
    simp [Function.comp, Prod.ext_iff]
  · rw [if_neg hca]
    apply List.countP_eq_zero.mpr
    intro x hx
    simp [Function.comp, Prod.ext_iff, hca]

theorem outer_countP_eq (m : CorrMatrix) (a b : String) :
    ∀ os : List String,
      ((os.flatMap fun c =>
        (m.cols.filterMap fun idx =>
          if idx ≠ c ∧ correlation_threshold ≤ |m.corr idx c| then
            some (idx, |m.corr idx c|) else none).map
          fun cs => ({ ctype := c ++ "_" ++ cs.1, strength := cs.2,
                       sources := (c, cs.1) } : CombinedPattern)).countP
        (fun p => decide (p.sources = (a, b)))) =
      os.countP (fun c => decide (c = a)) *
        ((m.cols.filterMap fun idx =>
          if idx ≠ a ∧ correlation_threshold ≤ |m.corr idx a| then
            some (idx, |m.corr idx a|) else none).countP
          (fun cs => decide (cs.1 = b))) := by
  intro os
  induction os with
  | nil => simp
  | cons c os ih =>
    rw [List.flatMap_cons, List.countP_append, ih, head_countP_eq m a b c]
    by_cases hca : c = a
    · subst hca
      rw [if_pos rfl, List.countP_cons_of_pos _ _ (by simp)]
      ring
    · rw [if_neg hca, List.countP_cons_of_neg _ _ (by simp [hca])]
      simp

/-- Amended C2: in the cross-domain half of `_combine_patterns`, for distinct
columns `a`, `b` of the correlation matrix, exactly one CombinedPattern with
ordered source pair `(a, b)` is produced iff `|corr(b, a)| ≥ 0.7` (at 0.7 the
pair is included, below it is excluded) and none otherwise — so a significant
unordered pair yields exactly two patterns, one per direction; every emitted
pattern has strength equal to the absolute coefficient of its source pair,
type `"{a}_{b}"`, strength at least the threshold and distinct sources. -/
theorem combine_patterns_pair_counts (m : CorrMatrix) (hnd : m.cols.Nodup)
    (a b : String) (ha : a ∈ m.cols) (hb : b ∈ m.cols) (hab : a ≠ b) :
    ((combineCorrelationPatterns m).countP
      fun p => decide (p.sources = (a, b))) =
      (if correlation_threshold ≤ |m.corr b a| then 1 else 0) ∧
    ∀ p ∈ combineCorrelationPatterns m,
      p.ctype = p.sources.1 ++ "_" ++ p.sources.2 ∧
      p.strength = |m.corr p.sources.2 p.sources.1| ∧
      correlation_threshold ≤ p.strength ∧ p.sources.1 ≠ p.sources.2 := by
  constructor
  · rw [combineCorrelationPatterns_flatten, outer_countP_eq m a b,
      inner_countP_eq m a b hnd hb, countP_eq_single m.cols hnd ha]
    have hba : b ≠ a := fun h => hab h.symm
    simp [hba]
  · intro p hp
    rw [combineCorrelationPatterns_flatten] at hp
    rcases List.mem_flatMap.mp hp with ⟨c, hc, hpc⟩
    rcases List.mem_map.mp hpc with ⟨cs, hcs, rfl⟩
    rcases List.mem_filterMap.mp hcs with ⟨idx, hidx, hf⟩
    by_cases hcond : idx ≠ c ∧ correlation_threshold ≤ |m.corr idx c|
    · rw [if_pos hcond] at hf
      cases hf
      exact ⟨rfl, rfl, hcond.2, fun h => hcond.1 h.symm⟩
    · rw [if_neg hcond] at hf
      exact absurd hf (by simp)

/-- Counterexample for C2: with two columns whose coefficient is exactly 0.7,
`_combine_patterns` emits a CombinedPattern for BOTH orderings of the single
unordered significant pair — the A-B and B-A directions are not
deduplicated, contradicting "each unordered pair yields exactly one
CombinedPattern". -/
theorem combine_patterns_unordered_pair_twice :
    ((combineCorrelationPatterns ⟨["a", "b"], fun _ _ => 7/10⟩).countP
      fun p => decide (p.sources = ("a", "b") ∨ p.sources = ("b", "a"))) = 2 := by
  have habs : |(7:ℚ)/10| = 7/10 := abs_of_pos (by norm_num)
  have heval : combineCorrelationPatterns ⟨["a", "b"], fun _ _ => 7/10⟩ =
      [{ ctype := "a_b", strength := 7/10, sources := ("a", "b") },
       { ctype := "b_a", strength := 7/10, sources := ("b", "a") }] := by
    simp [combineCorrelationPatterns, findSignificantCorrelations,
      correlation_threshold, habs, List.filterMap_cons, List.filter_cons]
  rw [heval]
  rfl

/-- Witness for C2 (amended): on the same two-column matrix, the theorem
instantiates to exactly one pattern with ordered sources ("a", "b"). -/
theorem combine_patterns_pair_counts_witness :
    ((combineCorrelationPatterns ⟨["a", "b"], fun _ _ => 7/10⟩).countP
      fun p => decide (p.sources = ("a", "b"))) = 1 := by
  have h := (combine_patterns_pair_counts ⟨["a", "b"], fun _ _ => 7/10⟩
    (by simp) "a" "b" (by simp) (by simp) (by simp)).1
  rw [h]
  have habs : |(7:ℚ)/10| = 7/10 := abs_of_pos (by norm_num)
  rw [if_pos (by rw [habs]; norm_num [correlation_threshold])]

/-! ### Focus sessions (`BehaviorAnalyzer._identify_focus_sessions`) -/

/-- An activity row: timestamp and duration, both in minutes. -/
structure Activity where
  timestamp : ℚ
  duration : ℚ
  deriving DecidableEq

instance : Inhabited Activity := ⟨⟨0, 0⟩⟩

/-- The FocusSession record constructed by `_identify_focus_sessions`
(imported in behavior.py from `clarity.schemas.behavior`, a module whose
source is not in the core; its fields are the ones the constructor call at
behavior.py lines 268-272 populates). -/
structure FocusSession where
  start_time : ℚ
  duration : ℚ
  activity_count : ℕ
  deriving DecidableEq

/-- Threshold `self.focus_session_threshold = 25` minutes (behavior.py
line 40). -/
def focus_session_threshold : ℚ := 25

/-- The `current_session` accumulator of the merge loop: start time,
accumulated duration, and the session's activities, most recent first (the
source appends to the list and reads `activities[-1]`). -/
structure CurrentSession where
  start_time : ℚ
  duration : ℚ
  activities : List Activity

/-- Emission of a finished session (behavior.py lines 266-273 and 282-292):
it is kept only when its accumulated duration reaches the threshold. -/
def emitSession (cs : CurrentSession) : List FocusSession :=
  if focus_session_threshold ≤ cs.duration then
    [⟨cs.start_time, cs.duration, cs.activities.length⟩]
  else []

/-- The merge loop of `_identify_focus_sessions` (behavior.py lines 247-292)
over the timestamp-sorted activities.  The source computes the gap to the
previous activity in seconds and divides by 60; timestamps here are already
minutes. -/
def sessionLoop : Option CurrentSession → List Activity → List FocusSession
  | none, [] => []
  | some cs, [] => emitSession cs
  | none, a :: rest => sessionLoop (some ⟨a.timestamp, a.duration, [a]⟩) rest
  | some cs, a :: rest =>
    let timeGap := a.timestamp - cs.activities.headI.timestamp
    if timeGap ≤ 5 then
      sessionLoop (some { cs with duration := cs.duration + a.duration,
                                  activities := a :: cs.activities }) rest
    else
      emitSession cs ++ sessionLoop (some ⟨a.timestamp, a.duration, [a]⟩) rest

/-- Sorting order of `activity_data.sort_values("timestamp")`. -/
def activityBefore (x y : Activity) : Prop := x.timestamp ≤ y.timestamp

instance : DecidableRel activityBefore := fun x y => by
  unfold activityBefore
  infer_instance

instance : IsTotal Activity activityBefore :=
  ⟨fun a b => le_total a.timestamp b.timestamp⟩

instance : IsTrans Activity activityBefore :=
  ⟨fun _ _ _ hab hbc => hab.trans hbc⟩

/-- Shallow embedding of `_identify_focus_sessions`: sort by timestamp
(pandas' stable sort is modelled by `List.insertionSort`) and merge. -/
def identifyFocusSessions (l : List Activity) : List FocusSession :=
  sessionLoop none (List.insertionSort activityBefore l)

/-- Total duration of a run of activities. -/
def sumDur (g : List Activity) : ℚ := (g.map Activity.duration).sum

/-- Modelled from the spec: the grouping of a timestamp-sorted activity list
into maximal runs whose adjacent gaps are at most 5 minutes (spec.md
section 4.1).  The accumulator holds the current run, most recent first. -/
def gapRunsAux : List Activity → List Activity → List (List Activity)
  | cur, [] => [cur.reverse]
  | cur, a :: rest =>
    if a.timestamp - cur.headI.timestamp ≤ 5 then gapRunsAux (a :: cur) rest
    else cur.reverse :: gapRunsAux [a] rest

/-- Modelled from the spec: gap-tolerant grouping of a sorted list. -/
def gapRuns : List Activity → List (List Activity)
  | [] => []
  | a :: rest => gapRunsAux [a] rest

/-- Modelled from the spec: a run becomes a focus session exactly when its
accumulated duration reaches the threshold. -/
def emitRun (g : List Activity) : Option FocusSession :=
  if focus_session_threshold ≤ sumDur g then
    some ⟨g.headI.timestamp, sumDur g, g.length⟩
  else none

theorem sumDur_reverse (g : List Activity) : sumDur g.reverse = sumDur g := by
  simp [sumDur, List.sum_reverse]

theorem headI_append {xs ys : List Activity} (h : xs ≠ []) :
    (xs ++ ys).headI = xs.headI := by
  cases xs with
  | nil => exact absurd rfl h
  | cons a t => rfl

theorem sessionLoop_eq_runs : ∀ (rest cur : List Activity) (st dur : ℚ),
    cur ≠ [] → st = cur.reverse.headI.timestamp → dur = sumDur cur →
    sessionLoop (some ⟨st, dur, cur⟩) rest =
      (gapRunsAux cur rest).filterMap emitRun := by
  intro rest
  induction rest with
  | nil =>
    intro cur st dur hne hst hdur
    subst hst
    subst hdur
    rw [gapRunsAux, List.filterMap_cons]
    show emitSession _ = _
    unfold emitSession emitRun
    by_cases ht : focus_session_threshold ≤ sumDur cur
    · rw [if_pos ht, if_pos (by rwa [sumDur_reverse])]
      simp [sumDur_reverse]
    · rw [if_neg ht, if_neg (by rwa [sumDur_reverse])]
      rfl
  | cons a rest ih =>
    intro cur st dur hne hst hdur
    show (if a.timestamp - cur.headI.timestamp ≤ 5 then _ else _) = _
    rw [gapRunsAux]
    by_cases hgap : a.timestamp - cur.headI.timestamp ≤ 5
    · rw [if_pos hgap, if_pos hgap]
      refine ih (a :: cur) st (dur + a.duration) (by simp) ?_ ?_
      · rw [hst, List.reverse_cons,
          headI_append (by simpa using hne)]
      · rw [hdur]
        simp [sumDur]
        ring
    · rw [if_neg hgap, if_neg hgap, List.filterMap_cons]
      have htail := ih [a] a.timestamp a.duration (by simp) (by simp)
        (by simp [sumDur])
      rw [htail]
      subst hst
      subst hdur
      unfold emitSession emitRun
      by_cases ht : focus_session_threshold ≤ sumDur cur
      · rw [if_pos ht, if_pos (by rwa [sumDur_reverse])]
        simp [sumDur_reverse]
      · rw [if_neg ht, if_neg (by rwa [sumDur_reverse])]
        simp

theorem identifyFocusSessions_eq_runs (l : List Activity) :
    identifyFocusSessions l =
      (gapRuns (List.insertionSort activityBefore l)).filterMap emitRun := by
  unfold identifyFocusSessions
  cases h : List.insertionSort activityBefore l with
  | nil => rfl
  | cons a rest =>
    rw [gapRuns]
    show sessionLoop (some ⟨a.timestamp, a.duration, [a]⟩) rest = _
    exact sessionLoop_eq_runs rest [a] a.timestamp a.duration (by simp)
      (by simp) (by simp [sumDur])

/-- The summarized `current_session` state: the merge loop reads its
accumulator only through the start time, the accumulated duration, the
number of collected activities, and the timestamp of the most recent
activity (`activities[-1]`). -/
structure SessionState where
  start_time : ℚ
  duration : ℚ
  count : ℕ
  lastTs : ℚ

/-- Session emission on the summarized state. -/
def emitS (s : SessionState) : List FocusSession :=
  if focus_session_threshold ≤ s.duration then
    [⟨s.start_time, s.duration, s.count⟩]
  else []

/-- The merge loop of `_identify_focus_sessions` on the summarized state. -/
def sessionLoopS : Option SessionState → List Activity → List FocusSession
  | none, [] => []
  | some s, [] => emitS s
  | none, a :: rest =>
    sessionLoopS (some ⟨a.timestamp, a.duration, 1, a.timestamp⟩) rest
  | some s, a :: rest =>
    if a.timestamp - s.lastTs ≤ 5 then
      sessionLoopS (some ⟨s.start_time, s.duration + a.duration, s.count + 1,
        a.timestamp⟩) rest
    else
      emitS s ++ sessionLoopS (some ⟨a.timestamp, a.duration, 1, a.timestamp⟩) rest

theorem sessionLoop_eq_sessionLoopS :
    ∀ (rest : List Activity) (st dur : ℚ) (acts : List Activity), acts ≠ [] →
      sessionLoop (some ⟨st, dur, acts⟩) rest =
        sessionLoopS (some ⟨st, dur, acts.length, acts.headI.timestamp⟩) rest := by
  intro rest
  induction rest with
  | nil =>
    intro st dur acts hne
    rfl
  | cons a rest ih =>
    intro st dur acts hne
    have hL : sessionLoop (some ⟨st, dur, acts⟩) (a :: rest) =
        if a.timestamp - acts.headI.timestamp ≤ 5 then
          sessionLoop (some ⟨st, dur + a.duration, a :: acts⟩) rest
        else emitSession ⟨st, dur, acts⟩ ++
          sessionLoop (some ⟨a.timestamp, a.duration, [a]⟩) rest := rfl
    have hR : sessionLoopS (some ⟨st, dur, acts.length, acts.headI.timestamp⟩)
        (a :: rest) =
        if a.timestamp - acts.headI.timestamp ≤ 5 then
          sessionLoopS (some ⟨st, dur + a.duration, acts.length + 1,
            a.timestamp⟩) rest
        else emitS ⟨st, dur, acts.length, acts.headI.timestamp⟩ ++
          sessionLoopS (some ⟨a.timestamp, a.duration, 1, a.timestamp⟩) rest := rfl
    rw [hL, hR]
    by_cases hgap : a.timestamp - acts.headI.timestamp ≤ 5
    · rw [if_pos hgap, if_pos hgap]
      exact ih st (dur + a.duration) (a :: acts) (by simp)
    · rw [if_neg hgap, if_neg hgap]
      rw [ih a.timestamp a.duration [a] (by simp)]
      rfl

theorem sessionLoop_none_eq_S : ∀ l : List Activity,
    sessionLoop none l = sessionLoopS none l
  | [] => rfl
  | a :: rest => sessionLoop_eq_sessionLoopS rest a.timestamp a.duration [a] (by simp)

theorem sessionLoopS_absorb (t : ℚ) :
    ∀ (B : List Activity), (∀ x ∈ B, x.timestamp = t) →
      ∀ (r : List Activity) (s : SessionState), s.lastTs = t →
        sessionLoopS (some s) (B ++ r) =
          sessionLoopS (some ⟨s.start_time, s.duration + sumDur B,
            s.count + B.length, t⟩) r := by
  intro B
  induction B with
  | nil =>
    intro _ r s hlast
    obtain ⟨st, dur, cnt, lts⟩ := s
    dsimp only at hlast ⊢
    subst hlast
    simp [sumDur]
  | cons x B ih =>
    intro hall r s hlast
    have hx : x.timestamp = t := hall x (List.mem_cons_self x B)
    have hstep : sessionLoopS (some s) ((x :: B) ++ r) =
        if x.timestamp - s.lastTs ≤ 5 then
          sessionLoopS (some ⟨s.start_time, s.duration + x.duration, s.count + 1,
            x.timestamp⟩) (B ++ r)
        else emitS s ++ sessionLoopS (some ⟨x.timestamp, x.duration, 1,
          x.timestamp⟩) (B ++ r) := rfl
    have ih2 : sessionLoopS (some ⟨s.start_time, s.duration + x.duration,
        s.count + 1, t⟩) (B ++ r) =
        sessionLoopS (some ⟨s.start_time, s.duration + x.duration + sumDur B,
          s.count + 1 + B.length, t⟩) r :=
      ih (fun y hy => hall y (List.mem_cons_of_mem x hy)) r
        ⟨s.start_time, s.duration + x.duration, s.count + 1, t⟩ rfl
    have h1 : s.duration + x.duration + sumDur B = s.duration + sumDur (x :: B) := by
      simp only [sumDur, List.map_cons, List.sum_cons]
      ring
    have h2 : s.count + 1 + B.length = s.count + (x :: B).length := by
      simp only [List.length_cons]
      omega
    rw [hstep, hx, if_pos (by rw [hlast]; norm_num), ih2, h1, h2]

theorem sessionLoopS_block (t : ℚ) (B : List Activity)
    (hall : ∀ x ∈ B, x.timestamp = t) (hne : B ≠ []) (r : List Activity) :
    (∀ s : SessionState,
      sessionLoopS (some s) (B ++ r) =
        if t - s.lastTs ≤ 5 then
          sessionLoopS (some ⟨s.start_time, s.duration + sumDur B,
            s.count + B.length, t⟩) r
        else
          emitS s ++ sessionLoopS (some ⟨t, sumDur B, B.length, t⟩) r) ∧
    sessionLoopS none (B ++ r) =
      sessionLoopS (some ⟨t, sumDur B, B.length, t⟩) r := by
  cases B with
  | nil => exact absurd rfl hne
  | cons x B =>
    have hx : x.timestamp = t := hall x (List.mem_cons_self x B)
    have hallB : ∀ y ∈ B, y.timestamp = t :=
      fun y hy => hall y (List.mem_cons_of_mem x hy)
    have h1 : x.duration + sumDur B = sumDur (x :: B) := by
      simp only [sumDur, List.map_cons, List.sum_cons]
    have h2 : 1 + B.length = (x :: B).length := by
      simp only [List.length_cons]
      omega
    constructor
    · intro s
      have hstep : sessionLoopS (some s) ((x :: B) ++ r) =
          if x.timestamp - s.lastTs ≤ 5 then
            sessionLoopS (some ⟨s.start_time, s.duration + x.duration,
              s.count + 1, x.timestamp⟩) (B ++ r)
          else emitS s ++ sessionLoopS (some ⟨x.timestamp, x.duration, 1,
            x.timestamp⟩) (B ++ r) := rfl
      have habs1 : sessionLoopS (some ⟨s.start_time, s.duration + x.duration,
          s.count + 1, t⟩) (B ++ r) =
          sessionLoopS (some ⟨s.start_time, s.duration + x.duration + sumDur B,
            s.count + 1 + B.length, t⟩) r :=
        sessionLoopS_absorb t B hallB r
          ⟨s.start_time, s.duration + x.duration, s.count + 1, t⟩ rfl
      have habs2 : sessionLoopS (some ⟨t, x.duration, 1, t⟩) (B ++ r) =
          sessionLoopS (some ⟨t, x.duration + sumDur B, 1 + B.length, t⟩) r :=
        sessionLoopS_absorb t B hallB r ⟨t, x.duration, 1, t⟩ rfl
      have h3 : s.duration + x.duration + sumDur B =
          s.duration + sumDur (x :: B) := by
        simp only [sumDur, List.map_cons, List.sum_cons]
        ring
      have h4 : s.count + 1 + B.length = s.count + (x :: B).length := by
        simp only [List.length_cons]
        omega
      rw [hstep, hx]
      by_cases hgap : t - s.lastTs ≤ 5
      · rw [if_pos hgap, if_pos hgap, habs1, h3, h4]
      · rw [if_neg hgap, if_neg hgap, habs2, h1, h2]
    · have hstep : sessionLoopS none ((x :: B) ++ r) =
          sessionLoopS (some ⟨x.timestamp, x.duration, 1, x.timestamp⟩)
            (B ++ r) := rfl
      have habs2 : sessionLoopS (some ⟨t, x.duration, 1, t⟩) (B ++ r) =
          sessionLoopS (some ⟨t, x.duration + sumDur B, 1 + B.length, t⟩) r :=
        sessionLoopS_absorb t B hallB r ⟨t, x.duration, 1, t⟩ rfl
      rw [hstep, hx, habs2, h1, h2]

theorem map_timestamp_eq (l₁ l₂ : List Activity) (hp : l₁.Perm l₂)
    (hs₁ : List.Sorted activityBefore l₁)
    (hs₂ : List.Sorted activityBefore l₂) :
    l₁.map Activity.timestamp = l₂.map Activity.timestamp := by
  have h₁ : List.Sorted (· ≤ ·) (l₁.map Activity.timestamp) :=
    List.pairwise_map.mpr hs₁
  have h₂ : List.Sorted (· ≤ ·) (l₂.map Activity.timestamp) :=
    List.pairwise_map.mpr hs₂
  exact List.eq_of_perm_of_sorted (hp.map Activity.timestamp) h₁ h₂

theorem dropWhile_ts_ne (t : ℚ) :
    ∀ (l : List Activity), List.Sorted activityBefore l →
      (∀ x ∈ l, t ≤ x.timestamp) →
      ∀ y ∈ l.dropWhile (fun x => decide (x.timestamp = t)),
        y.timestamp ≠ t := by
  intro l
  induction l with
  | nil =>
    intro _ _ y hy
    simp at hy
  | cons a l ih =>
    intro hs hmin y hy
    rw [List.dropWhile_cons] at hy
    by_cases ha : a.timestamp = t
    · rw [if_pos (by simp [ha])] at hy
      exact ih hs.of_cons (fun x hx => hmin x (List.mem_cons_of_mem a hx)) y hy
    · rw [if_neg (by simp [ha])] at hy
      rcases List.mem_cons.mp hy with rfl | hy2
      · exact ha
      · intro hyt
        have h1 : t ≤ a.timestamp := hmin a (List.mem_cons_self a l)
        have h2 : t < a.timestamp := lt_of_le_of_ne h1 (fun h => ha h.symm)
        have h3 : a.timestamp ≤ y.timestamp := List.rel_of_sorted_cons hs y hy2
        rw [hyt] at h3
        exact absurd (h2.trans_le h3) (lt_irrefl t)

theorem filter_eq_takeWhile_of_sorted (t : ℚ) (l : List Activity)
    (hs : List.Sorted activityBefore l) (hmin : ∀ x ∈ l, t ≤ x.timestamp) :
    l.filter (fun x => decide (x.timestamp = t)) =
      l.takeWhile (fun x => decide (x.timestamp = t)) ∧
    l.filter (fun x => !decide (x.timestamp = t)) =
      l.dropWhile (fun x => decide (x.timestamp = t)) := by
  have hdw := dropWhile_ts_ne t l hs hmin
  have htw : ∀ x ∈ l.takeWhile (fun x => decide (x.timestamp = t)),
      decide (x.timestamp = t) = true := fun x hx => by
    have h := List.mem_takeWhile_imp hx
    simpa using h
  constructor
  · conv_lhs =>
      rw [← List.takeWhile_append_dropWhile
        (fun x => decide (x.timestamp = t)) l]
    rw [List.filter_append, List.filter_eq_self.mpr htw,
      List.filter_eq_nil_iff.mpr (fun x hx => by simpa using hdw x hx),
      List.append_nil]
  · conv_lhs =>
      rw [← List.takeWhile_append_dropWhile
        (fun x => decide (x.timestamp = t)) l]
    rw [List.filter_append,
      List.filter_eq_nil_iff.mpr (fun x hx => by simp [htw x hx]),
      List.filter_eq_self.mpr (fun x hx => by simpa using hdw x hx),
      List.nil_append]

theorem sessionLoopS_perm_invariant :
    ∀ (n : ℕ) (l₁ l₂ : List Activity), l₁.length ≤ n → l₁.Perm l₂ →
      List.Sorted activityBefore l₁ → List.Sorted activityBefore l₂ →
      ∀ s? : Option SessionState, sessionLoopS s? l₁ = sessionLoopS s? l₂ := by
  intro n
  induction n with
  | zero =>
    intro l₁ l₂ hlen hp _ _ s?
    have h1 : l₁ = [] := List.length_eq_zero.mp (Nat.le_zero.mp hlen)
    subst h1
    rw [hp.symm.eq_nil]
  | succ n ih =>
    intro l₁ l₂ hlen hp hs₁ hs₂ s?
    cases l₁ with
    | nil =>
      rw [hp.symm.eq_nil]
    | cons a t₁ =>
      cases l₂ with
      | nil => exact absurd hp.eq_nil (by simp)
      | cons b t₂ =>
        have hts := map_timestamp_eq (a :: t₁) (b :: t₂) hp hs₁ hs₂
        simp only [List.map_cons, List.cons.injEq] at hts
        have hbt : b.timestamp = a.timestamp := hts.1.symm
        have hmin₁ : ∀ x ∈ a :: t₁, a.timestamp ≤ x.timestamp := by
          intro x hx
          rcases List.mem_cons.mp hx with rfl | hx2
          · exact le_refl _
          · exact List.rel_of_sorted_cons hs₁ x hx2
        have hmin₂ : ∀ x ∈ b :: t₂, a.timestamp ≤ x.timestamp := by
          intro x hx
          rcases List.mem_cons.mp hx with rfl | hx2
          · exact hbt.symm.le
          · exact hbt.symm.le.trans (List.rel_of_sorted_cons hs₂ x hx2)
        have hfil₁ := filter_eq_takeWhile_of_sorted a.timestamp (a :: t₁)
          hs₁ hmin₁
        have hfil₂ := filter_eq_takeWhile_of_sorted a.timestamp (b :: t₂)
          hs₂ hmin₂
        have hBperm : ((a :: t₁).takeWhile
            (fun x => decide (x.timestamp = a.timestamp))).Perm
            ((b :: t₂).takeWhile
              (fun x => decide (x.timestamp = a.timestamp))) := by
          rw [← hfil₁.1, ← hfil₂.1]
          exact hp.filter (fun x => decide (x.timestamp = a.timestamp))
        have hRperm : ((a :: t₁).dropWhile
            (fun x => decide (x.timestamp = a.timestamp))).Perm
            ((b :: t₂).dropWhile
              (fun x => decide (x.timestamp = a.timestamp))) := by
          rw [← hfil₁.2, ← hfil₂.2]
          exact hp.filter (fun x => !decide (x.timestamp = a.timestamp))
        have hall₁ : ∀ x ∈ (a :: t₁).takeWhile
            (fun x => decide (x.timestamp = a.timestamp)),
            x.timestamp = a.timestamp := fun x hx => by
          have h := List.mem_takeWhile_imp hx
          simpa using h
        have hall₂ : ∀ x ∈ (b :: t₂).takeWhile
            (fun x => decide (x.timestamp = a.timestamp)),
            x.timestamp = a.timestamp := fun x hx => by
          have h := List.mem_takeWhile_imp hx
          simpa using h
        have hBne₁ : (a :: t₁).takeWhile
            (fun x => decide (x.timestamp = a.timestamp)) ≠ [] := by
          rw [List.takeWhile_cons_of_pos (by simp)]
          simp
        have hBne₂ : (b :: t₂).takeWhile
            (fun x => decide (x.timestamp = a.timestamp)) ≠ [] := by
          rw [List.takeWhile_cons_of_pos (by simp [hbt])]
          simp
        have hsum : sumDur ((b :: t₂).takeWhile
            (fun x => decide (x.timestamp = a.timestamp))) =
            sumDur ((a :: t₁).takeWhile
              (fun x => decide (x.timestamp = a.timestamp))) := by
          unfold sumDur
          exact (hBperm.symm.map Activity.duration).sum_eq
        have hcount : ((b :: t₂).takeWhile
            (fun x => decide (x.timestamp = a.timestamp))).length =
            ((a :: t₁).takeWhile
              (fun x => decide (x.timestamp = a.timestamp))).length :=
          hBperm.symm.length_eq
        have hr₁sorted : List.Sorted activityBefore ((a :: t₁).dropWhile
            (fun x => decide (x.timestamp = a.timestamp))) :=
          hs₁.sublist (List.dropWhile_sublist _)
        have hr₂sorted : List.Sorted activityBefore ((b :: t₂).dropWhile
            (fun x => decide (x.timestamp = a.timestamp))) :=
          hs₂.sublist (List.dropWhile_sublist _)
        have hr₁len : ((a :: t₁).dropWhile
            (fun x => decide (x.timestamp = a.timestamp))).length ≤ n := by
          have hsplit := List.takeWhile_append_dropWhile
            (fun x => decide (x.timestamp = a.timestamp)) (a :: t₁)
          have hlen2 := congrArg List.length hsplit
          rw [List.length_append] at hlen2
          have hBpos : 0 < ((a :: t₁).takeWhile
              (fun x => decide (x.timestamp = a.timestamp))).length :=
            List.length_pos.mpr hBne₁
          have hlen3 : (a :: t₁).length ≤ n + 1 := hlen
          omega
        have hrec := ih ((a :: t₁).dropWhile
            (fun x => decide (x.timestamp = a.timestamp)))
          ((b :: t₂).dropWhile (fun x => decide (x.timestamp = a.timestamp)))
          hr₁len hRperm hr₁sorted hr₂sorted
        have hblock₁ := sessionLoopS_block a.timestamp
          ((a :: t₁).takeWhile (fun x => decide (x.timestamp = a.timestamp)))
          hall₁ hBne₁
          ((a :: t₁).dropWhile (fun x => decide (x.timestamp = a.timestamp)))
        have hblock₂ := sessionLoopS_block a.timestamp
          ((b :: t₂).takeWhile (fun x => decide (x.timestamp = a.timestamp)))
          hall₂ hBne₂
          ((b :: t₂).dropWhile (fun x => decide (x.timestamp = a.timestamp)))
        conv_lhs =>
          rw [← List.takeWhile_append_dropWhile
            (fun x => decide (x.timestamp = a.timestamp)) (a :: t₁)]
        conv_rhs =>
          rw [← List.takeWhile_append_dropWhile
            (fun x => decide (x.timestamp = a.timestamp)) (b :: t₂)]
        cases s? with
        | none =>
          rw [hblock₁.2, hblock₂.2, hsum, hcount]
          exact hrec (some _)
        | some s =>
          rw [hblock₁.1 s, hblock₂.1 s, hsum, hcount]
          by_cases hgap : a.timestamp - s.lastTs ≤ 5
          · rw [if_pos hgap, if_pos hgap]
            exact hrec (some _)
          · rw [if_neg hgap, if_neg hgap, hrec (some _)]

/-- C7: the focus sessions computed by `_identify_focus_sessions` are
identical for any permutation of the input rows — including rows with tied
timestamps, whose relative order cannot affect the merged sessions;
activities are sorted by timestamp before merging, and under that ordering
adjacent activities merge exactly when their gap is at most 5 minutes: the
output equals the gap-run grouping filtered by the 25-minute
accumulated-duration threshold, so every emitted session lasts at least 25
minutes. -/
theorem identify_focus_sessions_correct (l₁ l₂ : List Activity)
    (hperm : l₁.Perm l₂) :
    identifyFocusSessions l₁ = identifyFocusSessions l₂ ∧
    identifyFocusSessions l₁ =
      (gapRuns (List.insertionSort activityBefore l₁)).filterMap emitRun ∧
    ∀ s ∈ identifyFocusSessions l₁, focus_session_threshold ≤ s.duration := by
  refine ⟨?_, identifyFocusSessions_eq_runs l₁, ?_⟩
  · unfold identifyFocusSessions
    rw [sessionLoop_none_eq_S, sessionLoop_none_eq_S]
    exact sessionLoopS_perm_invariant
      (List.insertionSort activityBefore l₁).length
      (List.insertionSort activityBefore l₁)
      (List.insertionSort activityBefore l₂)
      le_rfl
      ((List.perm_insertionSort activityBefore l₁).trans
        (hperm.trans (List.perm_insertionSort activityBefore l₂).symm))
      (List.sorted_insertionSort activityBefore l₁)
      (List.sorted_insertionSort activityBefore l₂)
      none
  · intro s hs
    rw [identifyFocusSessions_eq_runs l₁] at hs
    rcases List.mem_filterMap.mp hs with ⟨g, hg, hf⟩
    unfold emitRun at hf
    by_cases ht : focus_session_threshold ≤ sumDur g
    · rw [if_pos ht] at hf
      cases hf
      exact ht
    · rw [if_neg ht] at hf
      exact absurd hf (by simp)

/-- Witness for C7: two activities sharing one timestamp, given in either
order, produce the same (single, 30-minute) focus-session list. -/
theorem identify_focus_sessions_correct_witness :
    identifyFocusSessions [⟨0, 20⟩, ⟨0, 10⟩] =
      identifyFocusSessions [⟨0, 10⟩, ⟨0, 20⟩] :=
  (identify_focus_sessions_correct [⟨0, 20⟩, ⟨0, 10⟩] [⟨0, 10⟩, ⟨0, 20⟩]
    (List.Perm.swap _ _ _)).1

/-! ### Strong single-domain patterns (`_find_strong_patterns`) -/

/-- Mean of a list of reals (`Series.mean()` / `np.mean`).  On an empty list
the source produces NaN; here 0/0 = 0, and every use either guards the
length or compares in a way that agrees with NaN semantics (noted at each
use). -/
noncomputable def listMean (l : List ℝ) : ℝ := l.sum / l.length

/-- Sample variance with ddof = 1, as squared by pandas `Series.std()`. -/
noncomputable def sampleVar (l : List ℝ) : ℝ :=
  ((l.map fun x => (x - listMean l) ^ 2).sum) / ((l.length : ℝ) - 1)

/-- pandas `Series.std()`: square root of the ddof-1 sample variance. -/
noncomputable def sampleStd (l : List ℝ) : ℝ := Real.sqrt (sampleVar l)

/-- Population standard deviation `np.std` (ddof = 0). -/
noncomputable def popStdR (l : List ℝ) : ℝ :=
  Real.sqrt (((l.map fun x => (x - listMean l) ^ 2).sum) / l.length)

/-- A pattern-table column: its label and its entries (`none` = null). -/
structure DFColumn where
  name : String
  values : List (Option ℝ)

/-- pandas `Series.dropna()`. -/
def dropna (c : DFColumn) : List ℝ := c.values.filterMap id

/-- A domain pattern table: its row count and its named nullable columns. -/
structure PatternDF where
  nrows : ℕ
  columns : List DFColumn

/-- Threshold `self.min_data_points = 10` (analyzer.py line 44). -/
def min_data_points : ℕ := 10

/-- Threshold `self.pattern_significance_threshold = 0.6` (analyzer.py
line 43). -/
noncomputable def pattern_significance_threshold : ℝ := 6 / 10

/-- Pattern strength of a column (analyzer.py line 289):
`abs(mean) / (std if std > 0 else 1)` over the non-null entries. -/
noncomputable def columnStrength (c : DFColumn) : ℝ :=
  |listMean (dropna c)| /
    (if 0 < sampleStd (dropna c) then sampleStd (dropna c) else 1)

/-- A strong pattern as returned by `_find_strong_patterns`. -/
structure StrongPattern where
  name : String
  strength : ℝ
  data : List ℝ
  confidence : ℝ
  support : ℝ

/-- Shallow embedding of `_find_strong_patterns` (analyzer.py lines
276-306). -/
noncomputable def findStrongPatterns (df : PatternDF) : List StrongPattern :=
  df.columns.filterMap fun c =>
    if min_data_points ≤ (dropna c).length then
      if pattern_significance_threshold ≤ columnStrength c then
        some { name := c.name, strength := columnStrength c,
               data := dropna c,
               confidence := min 1 (columnStrength c / 2),
               support := ((dropna c).length : ℝ) / (df.nrows : ℝ) }
      else none
    else none

theorem mem_findStrongPatterns_iff (df : PatternDF) (p : StrongPattern) :
    p ∈ findStrongPatterns df ↔ ∃ c ∈ df.columns,
      min_data_points ≤ (dropna c).length ∧
      pattern_significance_threshold ≤ columnStrength c ∧
      p = { name := c.name, strength := columnStrength c, data := dropna c,
            confidence := min 1 (columnStrength c / 2),
            support := ((dropna c).length : ℝ) / (df.nrows : ℝ) } := by
  unfold findStrongPatterns
  rw [List.mem_filterMap]
  constructor
  · rintro ⟨c, hc, hf⟩
    by_cases hlen : min_data_points ≤ (dropna c).length
    · rw [if_pos hlen] at hf
      by_cases hstr : pattern_significance_threshold ≤ columnStrength c
      · rw [if_pos hstr] at hf
        exact ⟨c, hc, hlen, hstr, (Option.some.injEq _ _ ▸ hf).symm⟩
      · rw [if_neg hstr] at hf
        exact absurd hf (by simp)
    · rw [if_neg hlen] at hf
      exact absurd hf (by simp)
  · rintro ⟨c, hc, hlen, hstr, rfl⟩
    exact ⟨c, hc, by rw [if_pos hlen, if_pos hstr]⟩

/-- Amended C1: a column yields a strong pattern iff it has at least 10
non-null observations and `|mean| ≥ 0.6 × divisor`, where the divisor is the
sample std when that is positive and 1 otherwise — NOT `max(std, 1)`: a
std strictly between 0 and 1 is used as the divisor itself; the emitted
confidence is `min(1, strength/2)`, and a column with fewer than 10
non-null observations never yields a pattern. -/
theorem find_strong_patterns_correct (df : PatternDF)
    (hnd : (df.columns.map DFColumn.name).Nodup) :
    (∀ c ∈ df.columns, (dropna c).length < min_data_points →
      ∀ p ∈ findStrongPatterns df, p.name ≠ c.name) ∧
    (∀ c ∈ df.columns,
      ((∃ p ∈ findStrongPatterns df, p.name = c.name) ↔
        (min_data_points ≤ (dropna c).length ∧
          pattern_significance_threshold *
            (if 0 < sampleStd (dropna c) then sampleStd (dropna c) else 1) ≤
            |listMean (dropna c)|))) ∧
    (∀ p ∈ findStrongPatterns df,
      p.confidence = min 1 (p.strength / 2) ∧
      ∃ c ∈ df.columns, p.name = c.name ∧ p.strength = columnStrength c) := by
  have hdivpos : ∀ c : DFColumn,
      (0:ℝ) < (if 0 < sampleStd (dropna c) then sampleStd (dropna c) else 1) := by
    intro c
    by_cases h : 0 < sampleStd (dropna c)
    · rwa [if_pos h]
    · rw [if_neg h]
      norm_num
  have hcond : ∀ c : DFColumn,
      (pattern_significance_threshold ≤ columnStrength c ↔
        pattern_significance_threshold *
          (if 0 < sampleStd (dropna c) then sampleStd (dropna c) else 1) ≤
          |listMean (dropna c)|) := by
    intro c
    unfold columnStrength
    rw [le_div_iff₀ (hdivpos c)]
  refine ⟨?_, ?_, ?_⟩
  · intro c hc hlen p hp hname
    rcases (mem_findStrongPatterns_iff df p).mp hp with ⟨c2, hc2, hlen2, -, rfl⟩
    have : c2 = c := List.inj_on_of_nodup_map hnd hc2 hc hname
    rw [this] at hlen2
    exact absurd hlen2 (not_le.mpr hlen)
  · intro c hc
    constructor
    · rintro ⟨p, hp, hname⟩
      rcases (mem_findStrongPatterns_iff df p).mp hp with ⟨c2, hc2, hlen2, hstr2, rfl⟩
      have : c2 = c := List.inj_on_of_nodup_map hnd hc2 hc hname
      rw [this] at hlen2 hstr2
      exact ⟨hlen2, (hcond c).mp hstr2⟩
    · rintro ⟨hlen, hstr⟩
      exact ⟨_, (mem_findStrongPatterns_iff df _).mpr
        ⟨c, hc, hlen, (hcond c).mpr hstr, rfl⟩, rfl⟩
  · intro p hp
    rcases (mem_findStrongPatterns_iff df p).mp hp with ⟨c, hc, -, -, rfl⟩
    exact ⟨rfl, c, hc, rfl, rfl⟩

/-- The column of the C1 counterexample: ten non-null values with mean 0.3
and sample standard deviation 0.4. -/
noncomputable def exampleColumn : DFColumn :=
  { name := "c",
    values := [some (9/10), some (9/10), some (-3/10), some (-3/10),
               some (3/10), some (3/10), some (3/10), some (3/10),
               some (3/10), some (3/10)] }

/-- A one-column table around `exampleColumn`. -/
noncomputable def exampleDF : PatternDF := { nrows := 10, columns := [exampleColumn] }

theorem exampleColumn_dropna :
    dropna exampleColumn = [9/10, 9/10, -3/10, -3/10, 3/10, 3/10, 3/10,
      3/10, 3/10, 3/10] := rfl

theorem exampleColumn_mean : listMean (dropna exampleColumn) = 3/10 := by
  rw [exampleColumn_dropna]
  unfold listMean
  norm_num

theorem exampleColumn_std : sampleStd (dropna exampleColumn) = 2/5 := by
  have hvar : sampleVar (dropna exampleColumn) = 4/25 := by
    unfold sampleVar
    rw [exampleColumn_mean, exampleColumn_dropna]
    norm_num
  unfold sampleStd
  rw [hvar, show (4:ℝ)/25 = (2/5)^2 by norm_num, Real.sqrt_sq (by norm_num)]

theorem exampleColumn_strength : columnStrength exampleColumn = 3/4 := by
  unfold columnStrength
  rw [exampleColumn_mean, exampleColumn_std, if_pos (by norm_num)]
  rw [abs_of_pos (by norm_num)]
  norm_num

/-- Counterexample for C1: on a ten-value column with mean 0.3 and sample
std 0.4, the code divides by the std itself (0.4 < 1), giving strength 0.75
and emitting a pattern, while the claimed formula `|mean| / max(std, 1)`
gives 0.3 < 0.6 and predicts no pattern. -/
theorem find_strong_patterns_counterexample :
    (∃ p ∈ findStrongPatterns exampleDF, p.name = "c") ∧
    |listMean (dropna exampleColumn)| / max (sampleStd (dropna exampleColumn)) 1 <
      pattern_significance_threshold := by
  constructor
  · refine ⟨_, (mem_findStrongPatterns_iff exampleDF _).mpr
      ⟨exampleColumn, List.mem_cons_self _ _, ?_, ?_, rfl⟩, rfl⟩
    · rw [exampleColumn_dropna]
      norm_num [min_data_points]
    · rw [exampleColumn_strength]
      unfold pattern_significance_threshold
      norm_num
  · rw [exampleColumn_mean, exampleColumn_std,
      max_eq_right (by norm_num : (2:ℝ)/5 ≤ 1), abs_of_pos (by norm_num)]
    unfold pattern_significance_threshold
    norm_num

/-- Witness for C1 (amended): the amended characterization instantiated on
the counterexample table emits the pattern for column "c". -/
theorem find_strong_patterns_correct_witness :
    ∃ p ∈ findStrongPatterns exampleDF, p.name = "c" := by
  have h := (find_strong_patterns_correct exampleDF
      (by simp [exampleDF])).2.1
    exampleColumn (List.mem_cons_self _ _)
  apply h.mpr
  constructor
  · rw [exampleColumn_dropna]
    norm_num [min_data_points]
  · rw [exampleColumn_mean, exampleColumn_std, if_pos (by norm_num : (0:ℝ) < 2/5)]
    unfold pattern_significance_threshold
    rw [abs_of_pos (by norm_num)]
    norm_num

/-! ### Recurring transactions (`_analyze_recurring_transactions`) -/

/-- A transaction row as built by `FinancialAnalyzer.get_user_data`: the
fields `_analyze_recurring_transactions` reads.  Dates are whole days, so
the source's `(dates[i+1] - dates[i]).days` is exact integer subtraction. -/
structure FinTransaction where
  date : ℤ
  amount : ℚ
  merchant : String
  deriving DecidableEq

/-- Threshold `self.pattern_detection_min_transactions = 5` (financial.py
line 32). -/
def pattern_detection_min_transactions : ℕ := 5

/-- The float mean `sum(intervals)/len(intervals)` of an integer list. -/
noncomputable def avgInterval (l : List ℤ) : ℝ := listMean (l.map fun i => (i : ℝ))

/-- `np.std` (population, ddof = 0) of an integer list. -/
noncomputable def popStdInt (l : List ℤ) : ℝ := popStdR (l.map fun i => (i : ℝ))

/-- The keys of `transactions.groupby("merchant")`: one entry per distinct
merchant, in sorted key order as pandas iterates them. -/
def merchantsOf (txs : List FinTransaction) : List String :=
  List.insertionSort (fun a b => a ≤ b) ((txs.map FinTransaction.merchant).dedup)

/-- One merchant's date column, sorted (`sorted(merchant_df["date"])`). -/
def merchantDates (txs : List FinTransaction) (m : String) : List ℤ :=
  List.insertionSort (fun a b => a ≤ b)
    ((txs.filter fun t => t.merchant = m).map FinTransaction.date)

/-- Consecutive inter-transaction day intervals. -/
def dateIntervals (dates : List ℤ) : List ℤ :=
  List.zipWith (fun a b => b - a) dates dates.tail

/-- A recurring-transaction pattern as emitted by
`_analyze_recurring_transactions`. -/
structure RecurringPattern where
  ptype : String
  name : String
  merchant : String
  strength : ℝ
  transaction_count : ℕ

/-- Shallow embedding of `_analyze_recurring_transactions` (financial.py
lines 230-266).  When every interval is zero the source computes the float
NaN for `interval_std / avg_interval`, and `NaN < 0.2` is false; the
`0 < avg` conjunct models exactly that (intervals of a sorted date list are
nonnegative, so their mean is zero only when all are zero). -/
noncomputable def analyzeRecurringTransactions (txs : List FinTransaction) :
    List RecurringPattern :=
  (merchantsOf txs).filterMap fun m =>
    if pattern_detection_min_transactions ≤
        (txs.filter fun t => t.merchant = m).length then
      if dateIntervals (merchantDates txs m) ≠ [] then
        if 0 < avgInterval (dateIntervals (merchantDates txs m)) ∧
            popStdInt (dateIntervals (merchantDates txs m)) /
              avgInterval (dateIntervals (merchantDates txs m)) < 1/5 then
          some { ptype := "recurring_transaction",
                 name := "recurring_" ++ m.toLower,
                 merchant := m,
                 strength := 1 - popStdInt (dateIntervals (merchantDates txs m)) /
                   avgInterval (dateIntervals (merchantDates txs m)),
                 transaction_count := (txs.filter fun t => t.merchant = m).length }
        else none
      else none
    else none

theorem mem_analyzeRecurringTransactions_iff (txs : List FinTransaction)
    (p : RecurringPattern) :
    p ∈ analyzeRecurringTransactions txs ↔ ∃ m ∈ merchantsOf txs,
      pattern_detection_min_transactions ≤
        (txs.filter fun t => t.merchant = m).length ∧
      dateIntervals (merchantDates txs m) ≠ [] ∧
      (0 < avgInterval (dateIntervals (merchantDates txs m)) ∧
        popStdInt (dateIntervals (merchantDates txs m)) /
          avgInterval (dateIntervals (merchantDates txs m)) < 1/5) ∧
      p = { ptype := "recurring_transaction",
            name := "recurring_" ++ m.toLower,
            merchant := m,
            strength := 1 - popStdInt (dateIntervals (merchantDates txs m)) /
              avgInterval (dateIntervals (merchantDates txs m)),
            transaction_count := (txs.filter fun t => t.merchant = m).length } := by
  unfold analyzeRecurringTransactions
  rw [List.mem_filterMap]
  constructor
  · rintro ⟨m, hm, hf⟩
    by_cases h1 : pattern_detection_min_transactions ≤
        (txs.filter fun t => t.merchant = m).length
    · rw [if_pos h1] at hf
      by_cases h2 : dateIntervals (merchantDates txs m) ≠ []
      · rw [if_pos h2] at hf
        by_cases h3 : 0 < avgInterval (dateIntervals (merchantDates txs m)) ∧
            popStdInt (dateIntervals (merchantDates txs m)) /
              avgInterval (dateIntervals (merchantDates txs m)) < 1/5
        · rw [if_pos h3] at hf
          exact ⟨m, hm, h1, h2, h3, (Option.some.injEq _ _ ▸ hf).symm⟩
        · rw [if_neg h3] at hf
          exact absurd hf (by simp)
      · rw [if_neg h2] at hf
        exact absurd hf (by simp)
    · rw [if_neg h1] at hf
      exact absurd hf (by simp)
  · rintro ⟨m, hm, h1, h2, h3, rfl⟩
    exact ⟨m, hm, by rw [if_pos h1, if_pos h2, if_pos h3]⟩

theorem mem_merchantsOf (txs : List FinTransaction) (m : String) :
    m ∈ merchantsOf txs ↔ m ∈ txs.map FinTransaction.merchant := by
  unfold merchantsOf
  rw [List.mem_insertionSort, List.mem_dedup]

theorem dateIntervals_ne_nil (txs : List FinTransaction) (m : String)
    (h : pattern_detection_min_transactions ≤
      (txs.filter fun t => t.merchant = m).length) :
    dateIntervals (merchantDates txs m) ≠ [] := by
  have hlen : (merchantDates txs m).length =
      (txs.filter fun t => t.merchant = m).length := by
    unfold merchantDates
    rw [List.length_insertionSort, List.length_map]
  have h5 : 5 ≤ (merchantDates txs m).length := by
    rw [hlen]
    exact h
  intro hnil
  have := congrArg List.length hnil
  rw [dateIntervals, List.length_zipWith, List.length_tail] at this
  simp only [List.length_nil] at this
  omega

/-- The dates of the C8 scenario: 20 transactions spaced 30 ± 1 days. -/
def acmeDates : List ℤ :=
  [0, 30, 59, 90, 119, 150, 179, 210, 239, 270,
   299, 330, 359, 390, 419, 450, 479, 510, 539, 570]

/-- The inter-transaction intervals of `acmeDates`. -/
def acmeIntervals : List ℤ :=
  [30, 29, 31, 29, 31, 29, 31, 29, 31, 29, 31, 29, 31, 29, 31, 29, 31, 29, 31]

/-- The C8 scenario: 20 transactions of $50 to merchant Acme. -/
def acmeTxs : List FinTransaction := acmeDates.map fun d => ⟨d, 50, "Acme"⟩

theorem acme_dates_eq : merchantDates acmeTxs "Acme" = acmeDates := by
  unfold merchantDates
  have hfil : (acmeTxs.filter fun t => t.merchant = "Acme").map
      FinTransaction.date = acmeDates := by decide
  rw [hfil]
  exact List.Sorted.insertionSort_eq (by decide)

theorem acme_intervals_eq :
    dateIntervals (merchantDates acmeTxs "Acme") = acmeIntervals := by
  rw [acme_dates_eq]
  decide

theorem acme_avg : avgInterval acmeIntervals = 30 := by
  unfold avgInterval listMean acmeIntervals
  norm_num

theorem acme_std : popStdInt acmeIntervals = Real.sqrt (18/19) := by
  unfold popStdInt popStdR
  rw [show listMean (acmeIntervals.map fun i => (i : ℝ)) = 30 from acme_avg]
  congr 1
  unfold acmeIntervals
  norm_num

theorem acme_sqrt_lt : Real.sqrt (18/19) < 3 :=
  (Real.sqrt_lt' (by norm_num)).mpr (by norm_num)

/-- C8: a merchant yields a recurring_transaction pattern iff it has at
least 5 transactions and (its mean inter-transaction interval being
positive, i.e. the ratio being a well-defined float) the ratio
`stddev(intervals)/mean(intervals)` is below 0.2; the pattern's strength is
`1 - ratio`; and the 20-transaction Acme scenario spaced 30 ± 1 days apart
yields such a pattern with strength above 0.9. -/
theorem analyze_recurring_transactions_correct :
    (∀ (txs : List FinTransaction) (m : String),
      ((∃ p ∈ analyzeRecurringTransactions txs, p.merchant = m) ↔
        (m ∈ txs.map FinTransaction.merchant ∧
         pattern_detection_min_transactions ≤
           (txs.filter fun t => t.merchant = m).length ∧
         0 < avgInterval (dateIntervals (merchantDates txs m)) ∧
         popStdInt (dateIntervals (merchantDates txs m)) /
           avgInterval (dateIntervals (merchantDates txs m)) < 1/5)) ∧
      ∀ p ∈ analyzeRecurringTransactions txs,
        p.ptype = "recurring_transaction" ∧
        p.strength = 1 - popStdInt (dateIntervals (merchantDates txs p.merchant)) /
          avgInterval (dateIntervals (merchantDates txs p.merchant))) ∧
    (∃ p ∈ analyzeRecurringTransactions acmeTxs,
      p.ptype = "recurring_transaction" ∧ p.merchant = "Acme" ∧
      (9:ℝ)/10 < p.strength) := by
  have hmain : ∀ (txs : List FinTransaction) (m : String),
      ((∃ p ∈ analyzeRecurringTransactions txs, p.merchant = m) ↔
        (m ∈ txs.map FinTransaction.merchant ∧
         pattern_detection_min_transactions ≤
           (txs.filter fun t => t.merchant = m).length ∧
         0 < avgInterval (dateIntervals (merchantDates txs m)) ∧
         popStdInt (dateIntervals (merchantDates txs m)) /
           avgInterval (dateIntervals (merchantDates txs m)) < 1/5)) := by
    intro txs m
    constructor
    · rintro ⟨p, hp, hpm⟩
      rcases (mem_analyzeRecurringTransactions_iff txs p).mp hp with
        ⟨m2, hm2, h1, h2, h3, rfl⟩
      have hm2m : m2 = m := hpm
      subst hm2m
      exact ⟨(mem_merchantsOf txs m2).mp hm2, h1, h3.1, h3.2⟩
    · rintro ⟨hmem, h1, h3a, h3b⟩
      refine ⟨_, (mem_analyzeRecurringTransactions_iff txs _).mpr
        ⟨m, (mem_merchantsOf txs m).mpr hmem, h1,
          dateIntervals_ne_nil txs m h1, ⟨h3a, h3b⟩, rfl⟩, rfl⟩
  refine ⟨fun txs m => ⟨hmain txs m, ?_⟩, ?_⟩
  · intro p hp
    rcases (mem_analyzeRecurringTransactions_iff txs p).mp hp with
      ⟨m2, hm2, h1, h2, h3, rfl⟩
    exact ⟨rfl, rfl⟩
  · have hratio : popStdInt (dateIntervals (merchantDates acmeTxs "Acme")) /
        avgInterval (dateIntervals (merchantDates acmeTxs "Acme")) < 1/10 := by
      rw [acme_intervals_eq, acme_avg, acme_std]
      rw [div_lt_iff₀ (by norm_num : (0:ℝ) < 30)]
      calc Real.sqrt (18/19) < 3 := acme_sqrt_lt
        _ ≤ 1/10 * 30 := by norm_num
    have hmem : ∃ p ∈ analyzeRecurringTransactions acmeTxs,
        p.merchant = "Acme" := by
      apply (hmain acmeTxs "Acme").mpr
      refine ⟨by decide, by decide, ?_, ?_⟩
      · rw [acme_intervals_eq, acme_avg]
        norm_num
      · rw [acme_intervals_eq, acme_avg, acme_std]
        rw [div_lt_iff₀ (by norm_num : (0:ℝ) < 30)]
        calc Real.sqrt (18/19) < 3 := acme_sqrt_lt
          _ ≤ 1/5 * 30 := by norm_num
    rcases hmem with ⟨p, hp, hpm⟩
    rcases (mem_analyzeRecurringTransactions_iff acmeTxs p).mp hp with
      ⟨m2, hm2, h1, h2, h3, rfl⟩
    refine ⟨_, hp, rfl, hpm, ?_⟩
    have hm2 : m2 = "Acme" := hpm
    subst hm2
    show (9:ℝ)/10 < 1 - popStdInt (dateIntervals (merchantDates acmeTxs "Acme")) /
      avgInterval (dateIntervals (merchantDates acmeTxs "Acme"))
    have := hratio
    linarith

/-- Witness for C8: the Acme scenario pattern extracted from the theorem. -/
theorem analyze_recurring_transactions_correct_witness :
    ∃ p ∈ analyzeRecurringTransactions acmeTxs,
      p.ptype = "recurring_transaction" ∧ p.merchant = "Acme" ∧
      (9:ℝ)/10 < p.strength :=
  analyze_recurring_transactions_correct.2

/-! ### Insight generation (`_generate_insights`) -/

/-- Rational mean, `np.mean` over the values of a single-dimension pattern
series. -/
def ratMean (l : List ℚ) : ℚ := l.sum / l.length

/-- Python `str.startswith`, on the character lists of the strings. -/
def pyStartsWith (s p : String) : Bool := p.data.isPrefixOf s.data

/-- A combined pattern as consumed by `_generate_insights`: its type string,
its strength, and (for single-dimension patterns) the `pattern` payload of
metric name → series values. -/
structure GPattern where
  gtype : String
  strength : ℚ
  pattern : List (String × List ℚ)

/-- Shallow embedding of `_analyze_behavior_pattern` (analyzer.py lines
460-488).  When the low-focus condition holds, the insight literal
evaluates `str(uuid.uuid4())` first — and `uuid` is never imported in
analyzer.py, so the emission raises NameError; a metric that triggers
nothing is skipped normally.  `np.mean` of an empty series is the float NaN
and `NaN < 45` is false, which the nonempty guard models.  The `strength`
argument of the source is only read after the raising expression, hence
absent here. -/
def analyzeBehaviorPattern : List (String × List ℚ) → Except String (List Insight)
  | [] => Except.ok []
  | md :: rest =>
    if md.1 = "focus_time" then
      if md.2 ≠ [] ∧ ratMean md.2 < 45 then
        Except.error "NameError: name 'uuid' is not defined"
      else analyzeBehaviorPattern rest
    else analyzeBehaviorPattern rest

/-- Shallow embedding of `_analyze_financial_pattern` (analyzer.py lines
490-523): the volatility locals are computed first (with an empty series or
zero mean the source's NaN comparison is false, agreeing with 0-division
here), and an emission raises NameError at `str(uuid.uuid4())`. -/
noncomputable def analyzeFinancialPattern :
    List (String × List ℚ) → Except String (List Insight)
  | [] => Except.ok []
  | md :: rest =>
    if md.1 = "discretionary_spending" then
      if 3/10 < popStdR (md.2.map fun x => (x:ℝ)) / ((ratMean md.2 : ℚ) : ℝ) then
        Except.error "NameError: name 'uuid' is not defined"
      else analyzeFinancialPattern rest
    else analyzeFinancialPattern rest

/-- Shallow embedding of `_calculate_schedule_consistency` (analyzer.py
lines 557-567). -/
noncomputable def calculateScheduleConsistency (activeHours : List ℚ) : ℝ :=
  if activeHours = [] then 0
  else 1 - min (popStdR (activeHours.map fun x => (x:ℝ)) / 8) 1

/-- Shallow embedding of `_analyze_temporal_pattern` (analyzer.py lines
525-555): a low-consistency schedule triggers an emission, which raises
NameError at `str(uuid.uuid4())`. -/
noncomputable def analyzeTemporalPattern :
    List (String × List ℚ) → Except String (List Insight)
  | [] => Except.ok []
  | md :: rest =>
    if md.1 = "active_hours" then
      if calculateScheduleConsistency md.2 < 7/10 then
        Except.error "NameError: name 'uuid' is not defined"
      else analyzeTemporalPattern rest
    else analyzeTemporalPattern rest

/-- Shallow embedding of `_generate_single_dimension_insights` (analyzer.py
lines 443-458). -/
noncomputable def generateSingleDimensionInsights (p : GPattern) :
    Except String (List Insight) :=
  if p.gtype = "behavior" then analyzeBehaviorPattern p.pattern
  else if p.gtype = "financial" then analyzeFinancialPattern p.pattern
  else if p.gtype = "temporal" then analyzeTemporalPattern p.pattern
  else Except.ok []

/-- One iteration of the `_generate_insights` dispatch (analyzer.py lines
312-323): the `behavior_financial` and `temporal_financial` branches call
methods absent from the class (AttributeError), and
`_generate_behavior_temporal_insights` either returns no insights or raises
on the absent `_analyze_hourly_productivity` — both of which the caller's
handler turns into an empty contribution, modelled as `ok []`. -/
noncomputable def insightsForPattern (p : GPattern) : Except String (List Insight) :=
  if pyStartsWith p.gtype "behavior_financial" then
    Except.error "AttributeError: _generate_behavior_financial_insights"
  else if pyStartsWith p.gtype "temporal_financial" then
    Except.error "AttributeError: _generate_temporal_financial_insights"
  else if pyStartsWith p.gtype "behavior_temporal" then
    Except.ok []
  else generateSingleDimensionInsights p

/-- Shallow embedding of `_generate_insights` (analyzer.py lines 308-333):
the per-pattern `try/except` at lines 325-330 logs and swallows every
builder failure, so a failing pattern contributes no insights; the
accumulated list is handed to `_rank_and_deduplicate_insights`. -/
noncomputable def generateInsights (patterns : List GPattern) :
    Except String (List Insight) :=
  rankAndDeduplicateInsights (patterns.flatMap fun p =>
    match insightsForPattern p with
    | Except.ok insights => insights
    | Except.error _ => [])

theorem analyzeBehaviorPattern_ok :
    ∀ (pd : List (String × List ℚ)) (l : List Insight),
      analyzeBehaviorPattern pd = Except.ok l → l = [] := by
  intro pd
  induction pd with
  | nil =>
    intro l h
    injection h with h2
    exact h2.symm
  | cons md rest ih =>
    intro l h
    rw [analyzeBehaviorPattern] at h
    by_cases h1 : md.1 = "focus_time"
    · rw [if_pos h1] at h
      by_cases h2 : md.2 ≠ [] ∧ ratMean md.2 < 45
      · rw [if_pos h2] at h
        exact absurd h (by simp)
      · rw [if_neg h2] at h
        exact ih l h
    · rw [if_neg h1] at h
      exact ih l h

theorem analyzeFinancialPattern_ok :
    ∀ (pd : List (String × List ℚ)) (l : List Insight),
      analyzeFinancialPattern pd = Except.ok l → l = [] := by
  intro pd
  induction pd with
  | nil =>
    intro l h
    injection h with h2
    exact h2.symm
  | cons md rest ih =>
    intro l h
    rw [analyzeFinancialPattern] at h
    by_cases h1 : md.1 = "discretionary_spending"
    · rw [if_pos h1] at h
      by_cases h2 : 3/10 < popStdR (md.2.map fun x => (x:ℝ)) /
          ((ratMean md.2 : ℚ) : ℝ)
      · rw [if_pos h2] at h
        exact absurd h (by simp)
      · rw [if_neg h2] at h
        exact ih l h
    · rw [if_neg h1] at h
      exact ih l h

theorem analyzeTemporalPattern_ok :
    ∀ (pd : List (String × List ℚ)) (l : List Insight),
      analyzeTemporalPattern pd = Except.ok l → l = [] := by
  intro pd
  induction pd with
  | nil =>
    intro l h
    injection h with h2
    exact h2.symm
  | cons md rest ih =>
    intro l h
    rw [analyzeTemporalPattern] at h
    by_cases h1 : md.1 = "active_hours"
    · rw [if_pos h1] at h
      by_cases h2 : calculateScheduleConsistency md.2 < 7/10
      · rw [if_pos h2] at h
        exact absurd h (by simp)
      · rw [if_neg h2] at h
        exact ih l h
    · rw [if_neg h1] at h
      exact ih l h

theorem insightsForPattern_ok (p : GPattern) (l : List Insight)
    (h : insightsForPattern p = Except.ok l) : l = [] := by
  unfold insightsForPattern at h
  by_cases hbf : pyStartsWith p.gtype "behavior_financial" = true
  · rw [if_pos hbf] at h
    exact absurd h (by simp)
  · rw [if_neg hbf] at h
    by_cases htf : pyStartsWith p.gtype "temporal_financial" = true
    · rw [if_pos htf] at h
      exact absurd h (by simp)
    · rw [if_neg htf] at h
      by_cases hbt : pyStartsWith p.gtype "behavior_temporal" = true
      · rw [if_pos hbt] at h
        injection h with h2
        exact h2.symm
      · rw [if_neg hbt] at h
        unfold generateSingleDimensionInsights at h
        by_cases hb : p.gtype = "behavior"
        · rw [if_pos hb] at h
          exact analyzeBehaviorPattern_ok p.pattern l h
        · rw [if_neg hb] at h
          by_cases hf : p.gtype = "financial"
          · rw [if_pos hf] at h
            exact analyzeFinancialPattern_ok p.pattern l h
          · rw [if_neg hf] at h
            by_cases ht : p.gtype = "temporal"
            · rw [if_pos ht] at h
              exact analyzeTemporalPattern_ok p.pattern l h
            · rw [if_neg ht] at h
              injection h with h2
              exact h2.symm

theorem insightsForPattern_contribution (p : GPattern) :
    (match insightsForPattern p with
     | Except.ok insights => insights
     | Except.error _ => []) = [] := by
  cases h : insightsForPattern p with
  | error e => rfl
  | ok insights =>
    simpa using insightsForPattern_ok p insights h

/-- C5 (vacuously holds): every insight produced by `generate_insights` has
confidence in [0, 1], for every list of combined patterns — because every
builder emission raises NameError on the missing `uuid` import, the
per-pattern handler swallows each failure, and the call always returns the
empty insight list. -/
theorem generate_insights_confidence_in_range (patterns : List GPattern) :
    generateInsights patterns = Except.ok [] ∧
    ∀ l, generateInsights patterns = Except.ok l →
      ∀ i ∈ l, 0 ≤ i.confidence ∧ i.confidence ≤ 1 := by
  have hflat : (patterns.flatMap fun p =>
      match insightsForPattern p with
      | Except.ok insights => insights
      | Except.error _ => []) = [] := by
    induction patterns with
    | nil => rfl
    | cons p ps ih =>
      rw [List.flatMap_cons, ih, List.append_nil, insightsForPattern_contribution]
  have hempty : generateInsights patterns = Except.ok [] := by
    unfold generateInsights
    rw [hflat]
    rfl
  refine ⟨hempty, ?_⟩
  intro l hl i hi
  rw [hempty] at hl
  injection hl with h2
  rw [← h2] at hi
  exact absurd hi (List.not_mem_nil i)

/-- Witness for C5: at the concrete combined pattern that would drive the
Low Focus Time insight (strength 2, average focus 30 minutes),
`generate_insights` still returns no insight at all. -/
theorem generate_insights_confidence_in_range_witness :
    generateInsights [⟨"behavior", 2, [("focus_time", [30])]⟩] = Except.ok [] :=
  (generate_insights_confidence_in_range
    [⟨"behavior", 2, [("focus_time", [30])]⟩]).1

end Clarity
